import Mathlib

/-!
# Verification of the chunked source compressor (js/src/vm/Compression.cpp)

This file shallowly embeds the chunked, random-access compressor/decompressor
of `js/src/vm/Compression.cpp` and settles the frozen claims about it.

Modelling conventions:

* Bytes are `Nat` values below 256; byte buffers are `List Nat`.
* Machine integers are `Nat` with explicit `% 4294967296` where a 32-bit
  store or wrap-around matters (the `compressedBytes` header field, the
  `uint32_t` chunk-offset entries, and the `uInt` subtraction
  `compressedEnd - compressedStart` in the chunk decoder).
* `MOZ_ASSERT` is debug-only and is modelled as a no-op (release semantics);
  `MOZ_RELEASE_ASSERT` aborts the process and is modelled as decode failure.
* The zlib and zstd stream primitives are external libraries, not part of the
  repository. They are modelled from the spec (sections 4.2, 4.3 and the
  glossary): each chunk's compressed segment is an independently decodable
  unit, produced by a full flush (zlib `Z_FULL_FLUSH` over raw deflate, zstd
  `ZSTD_flushStream`), and the streaming calls consume input and fill the
  caller's output span exactly as the driver observes through
  `avail_in`/`avail_out` and `ZSTD_outBuffer.pos`. Concretely the modelled
  codecs use an identity coding: zlib emits the chunk bytes followed by a
  sync-marker (or an end marker for `Z_FINISH`), zstd buffers its input and
  emits a length-prefixed frame per flush. Compression levels change the
  real libraries' byte output but not any property claimed here, so the
  model ignores `level` beyond recording it in the header.
* The driver, the chunk accounting, the container writer `finish`, and both
  decoders are translated line by line from `Compression.cpp`.
-/

namespace Compression

/-- Chunk size C = 65536 bytes. Modelled from the spec: the constant lives in
Compression.h which is not among the sources; section 6 fixes it to 65536. -/
def CHUNK_SIZE : Nat := 65536

/-- Size of CompressedDataHeader. Modelled from the spec (section 3): 4-byte
compressedBytes, 1-byte algorithm, 1-byte level, 2 reserved bytes. -/
def headerSize : Nat := 8

/-- Value of the C constant UINT32_MAX, used by Compressor::init. -/
def UINT32_MAX : Nat := 4294967295

/-- Value of 2^32, the modulus of 32-bit stores. -/
def U32MOD : Nat := 4294967296

/-- AlignBytes(n, sizeof(uint32_t)) from util/Memory.h: round n up to a
multiple of 4. -/
def align4 (n : Nat) : Nat := ((n + 3) / 4) * 4

/-- Little-endian 4-byte encoding of n (mod 2^32), as PodCopy of a uint32_t
lays it out on the little-endian platforms the spec fixes (section 6). -/
def lenLE4 (n : Nat) : List Nat :=
  [n % 256, n / 256 % 256, n / 65536 % 256, n / 16777216 % 256]

/-- Byte i of a buffer (0 past the end). -/
def byteAt (l : List Nat) (i : Nat) : Nat := l.getD i 0

/-- Little-endian uint32 read at byte offset i. -/
def readLE4 (l : List Nat) (i : Nat) : Nat :=
  byteAt l i + 256 * byteAt l (i + 1) + 65536 * byteAt l (i + 2) +
    16777216 * byteAt l (i + 3)

/-- Unsigned 32-bit subtraction a - b (both arguments below 2^32). -/
def u32sub (a b : Nat) : Nat := (a + U32MOD - b) % U32MOD

/-- Number of chunks for input length L, as the code computes it in its
assertion: (inplen - 1) / CHUNK_SIZE + 1, which equals ceil(L / C) for L >= 1. -/
def numChunks (L : Nat) : Nat := (L - 1) / CHUNK_SIZE + 1

/-- Uncompressed bytes of chunk j: B[j*C : min((j+1)*C, |B|)]. -/
def chunkSliceOf (B : List Nat) (j : Nat) : List Nat :=
  (B.drop (CHUNK_SIZE * j)).take CHUNK_SIZE

/-- Status codes of Compressor::compressMore. -/
inductive Status where
  | CONTINUE
  | MOREOUTPUT
  | DONE
  | OOM
deriving DecidableEq, Repr

/-- Flush directives handed to deflate. -/
inductive ZMode where
  | NO_FLUSH
  | FULL_FLUSH
  | FINISH
deriving DecidableEq, Repr

/-- Zlib return codes the driver distinguishes. -/
inductive ZRet where
  | Z_OK
  | Z_STREAM_END
  | Z_BUF_ERROR
  | Z_MEM_ERROR
  | Z_DATA_ERROR
deriving DecidableEq, Repr

/-- Framing of a zlib inflate stream: the wrapped zlib format (header plus
adler trailer) or raw deflate. -/
inductive ZlibFraming where
  | zlibWrapped
  | raw
deriving DecidableEq, Repr

/-- Framing selected by inflateInit: the default windowBits of 15, which is
the wrapped zlib format. -/
def inflateInit_framing : ZlibFraming := ZlibFraming.zlibWrapped

/-- Framing selected by inflateInit2: a negative windowBits forces raw
deflate, a nonnegative one keeps the wrapped format. -/
def inflateInit2_framing (windowBits : Int) : ZlibFraming :=
  if windowBits < 0 then ZlibFraming.raw else ZlibFraming.zlibWrapped

/-- WindowBits constant of Compression.cpp: -15 forces raw deflate. -/
def WindowBits : Int := -15

/-- Modelled from the spec (section 4.2): the sync marker a zlib full flush
emits between chunks of the identity-coded model stream. -/
def zFlushMark : List Nat := [0, 0, 255, 255]

/-- Modelled from the spec (section 4.2): the end-of-stream marker Z_FINISH
emits after the final chunk of the identity-coded model stream. -/
def zEndMark : List Nat := [3]

/-- Compressed segment of chunk j in the modelled raw-deflate payload: the
chunk bytes followed by a full-flush marker, or by the end-of-stream marker
for the final chunk. -/
def zFrame (B : List Nat) (j : Nat) : List Nat :=
  chunkSliceOf B j ++ (if j + 1 = numChunks B.length then zEndMark else zFlushMark)

/-- Whole modelled raw-deflate payload of input B. -/
def zlibPayload (B : List Nat) : List Nat :=
  (List.range (numChunks B.length)).flatMap (zFrame B)

/-- Modelled from the spec (section 4.3): first byte of a modelled zstd frame. -/
def ZSTD_MAGIC : Nat := 181

/-- Modelled zstd frame: magic byte, little-endian length, then the data. A
flush or end of the modelled zstd stream emits one complete such frame, which
is exactly the independently decodable segment the spec requires. -/
def zstdFrameEnc (bs : List Nat) : List Nat :=
  ZSTD_MAGIC :: (lenLE4 bs.length ++ bs)

/-- Compressed segment of chunk j in the modelled zstd payload. -/
def zstdFrameOf (B : List Nat) (j : Nat) : List Nat :=
  zstdFrameEnc (chunkSliceOf B j)

/-- Whole modelled zstd payload of input B. -/
def zstdPayload (B : List Nat) : List Nat :=
  (List.range (numChunks B.length)).flatMap (zstdFrameOf B)

/-- Payload the compressor emits for input B under algorithm tag alg. -/
def payloadOf (B : List Nat) (alg : Nat) : List Nat :=
  if alg = 0 then zlibPayload B else if alg = 1 then zstdPayload B else []

/-- Final value of the outbytes counter after a completed compression. -/
def finalOutbytes (B : List Nat) (alg : Nat) : Nat :=
  headerSize + (payloadOf B alg).length

/-- Compressed segment of chunk j under algorithm tag alg. -/
def frameOf (B : List Nat) (alg j : Nat) : List Nat :=
  if alg = 0 then zFrame B j else zstdFrameOf B j

/-- Concatenated compressed segments of the first j chunks. -/
def framesUpTo (B : List Nat) (alg j : Nat) : List Nat :=
  (List.range j).flatMap (frameOf B alg)

/-- Per-chunk compressed-end offsets O[0..j) accumulated after j completed
chunks, each stored into a uint32_t entry. -/
def offsetsUpTo (B : List Nat) (alg : Nat) (j : Nat) : List Nat :=
  (List.range j).map (fun k => (headerSize + (framesUpTo B alg (k + 1)).length) % U32MOD)

/-- State of js::Compressor. The zlib z_stream and the zstd stream handle are
flattened into the record: zNextIn models zs.next_in - inp, zAvailIn models
zs.avail_in, zPending and zFinishQueued are the modelled deflate-internal
output queue; zstdBuffered and zstdPending are the modelled zstd-internal
input buffer and output queue; zstdOutPos and zstdOutSize model ZSTD_outBuffer.
payload holds the output-buffer bytes written past the header, so
outbytes = headerSize + payload.length throughout. -/
structure Compressor where
  alg : Nat
  level : Nat
  inp : List Nat
  inplen : Nat
  initialized : Bool
  finishedFlag : Bool
  currentChunkSize : Nat
  outbytes : Nat
  chunkOffsets : List Nat
  payload : List Nat
  outCapacity : Nat
  zNextIn : Nat
  zAvailIn : Nat
  zPending : List Nat
  zFinishQueued : Bool
  zstdInputPos : Nat
  zstdBuffered : List Nat
  zstdPending : List Nat
  zstdOutPos : Nat
  zstdOutSize : Nat
deriving DecidableEq, Repr

/-- Compressor::Compressor(inp, inplen, algorithm, level): reserves header
room in outbytes and zeroes the stream state. -/
def Compressor.new (B : List Nat) (alg level : Nat) : Compressor :=
  { alg := alg, level := level, inp := B, inplen := B.length,
    initialized := false, finishedFlag := false,
    currentChunkSize := 0, outbytes := headerSize, chunkOffsets := [],
    payload := [], outCapacity := 0,
    zNextIn := 0, zAvailIn := 0, zPending := [], zFinishQueued := false,
    zstdInputPos := 0, zstdBuffered := [], zstdPending := [],
    zstdOutPos := 0, zstdOutSize := 0 }

/-- Compressor::init as a predicate on (inplen, algorithm). Rejects
inplen >= UINT32_MAX, dispatches on the algorithm tag, and rejects unknown
tags. The backend allocations (deflateInit2, ZSTD_createCStream,
ZSTD_initCStream) are modelled from the spec as succeeding, since out-of-memory
is environmental. -/
def initOK (inplen alg : Nat) : Bool :=
  if UINT32_MAX ≤ inplen then false
  else if alg = 0 then true
  else if alg = 1 then true
  else false

/-- Compressor::init on the state. -/
def Compressor.init (st : Compressor) : Option Compressor :=
  if initOK st.inplen st.alg then some { st with initialized := true } else none

/-- Compressor::setOutput(out, outlen): binds an output buffer of outlen
bytes. For zlib, next_out/avail_out are the derived quantities
outCapacity - outbytes; for zstd the ZSTD_outBuffer is rebased. -/
def Compressor.setOutput (st : Compressor) (outlen : Nat) : Compressor :=
  { st with outCapacity := outlen,
            zstdOutPos := 0, zstdOutSize := outlen - st.outbytes }

/-- Lines 154-160 of compressMoreZlib: negotiate zs.avail_in. When more than
MAX_INPUT_SIZE bytes remain and avail_in is nonzero (input left over from a
step that filled the output buffer), the stale avail_in is kept. -/
def zlibNegotiatedAvailIn (maxInput : Nat) (st : Compressor) : Nat :=
  let left := st.inplen - st.zNextIn
  if left ≤ maxInput then left
  else if st.zAvailIn = 0 then maxInput else st.zAvailIn

/-- Lines 162-171: clamp avail_in so the current chunk never exceeds
CHUNK_SIZE uncompressed bytes. -/
def zlibClampedAvailIn (maxInput : Nat) (st : Compressor) : Nat :=
  let a := zlibNegotiatedAvailIn maxInput st
  if CHUNK_SIZE ≤ st.currentChunkSize + a then CHUNK_SIZE - st.currentChunkSize
  else a

/-- Whether the step is marked as a flush step (line 170). -/
def zlibIsFlushStep (maxInput : Nat) (st : Compressor) : Bool :=
  CHUNK_SIZE ≤ st.currentChunkSize + zlibNegotiatedAvailIn maxInput st

/-- Line 174: done = (avail_in == left), computed after the clamp. -/
def zlibIsDoneStep (maxInput : Nat) (st : Compressor) : Bool :=
  zlibClampedAvailIn maxInput st = st.inplen - st.zNextIn

/-- Line 178: the flush directive handed to deflate. -/
def zlibModeOf (maxInput : Nat) (st : Compressor) : ZMode :=
  if zlibIsDoneStep maxInput st then ZMode.FINISH
  else if zlibIsFlushStep maxInput st then ZMode.FULL_FLUSH
  else ZMode.NO_FLUSH

/-- Result of one modelled deflate call. -/
structure DeflateResult where
  ret : ZRet
  emitted : List Nat
  consumed : Nat
  pendingAfter : List Nat
  finishQueuedAfter : Bool
deriving DecidableEq, Repr

/-- Modelled from the spec (section 4.2): one call of deflate on the raw
stream. The model drains internally pending bytes into the output span,
copies input to output while both spans have room (identity coding), and on a
full flush (resp. finish) with all input consumed queues the sync marker
(resp. once, the end marker) and drains again. deflate reports Z_STREAM_END
exactly when finishing and everything has reached the output. -/
def deflateModel (B : List Nat) (mode : ZMode) (nextIn availIn availOut : Nat)
    (pending : List Nat) (finishQueued : Bool) : DeflateResult :=
  let w1 := min pending.length availOut
  let out1 := pending.take w1
  let pending1 := pending.drop w1
  let availOut1 := availOut - w1
  let c := min availIn availOut1
  let out2 := (B.drop nextIn).take c
  let availIn2 := availIn - c
  let availOut2 := availOut1 - c
  let mark : List Nat :=
    if mode = ZMode.FINISH then
      (if availIn2 = 0 ∧ finishQueued = false then zEndMark else [])
    else if mode = ZMode.FULL_FLUSH then
      (if availIn2 = 0 then zFlushMark else [])
    else []
  let pending2 := pending1 ++ mark
  let fq2 := if mode = ZMode.FINISH ∧ availIn2 = 0 then true else finishQueued
  let w3 := min pending2.length availOut2
  let out3 := pending2.take w3
  let pending3 := pending2.drop w3
  let ret :=
    if mode = ZMode.FINISH ∧ availIn2 = 0 ∧ pending3 = [] then ZRet.Z_STREAM_END
    else ZRet.Z_OK
  { ret := ret, emitted := out1 ++ out2 ++ out3, consumed := c,
    pendingAfter := pending3, finishQueuedAfter := fq2 }

/-- Compressor::compressMoreZlib (lines 153-207): negotiate and clamp
avail_in, call deflate with the chosen directive, account outbytes and
currentChunkSize, map Z_MEM_ERROR to OOM and an exhausted output buffer to
MOREOUTPUT, record the chunk offset when a chunk or the stream completes, and
return DONE or CONTINUE. -/
def compressMoreZlib (maxInput : Nat) (st : Compressor) : Status × Compressor :=
  let availIn := zlibClampedAvailIn maxInput st
  let done := zlibIsDoneStep maxInput st
  let mode := zlibModeOf maxInput st
  let availOut := st.outCapacity - st.outbytes
  let r := deflateModel st.inp mode st.zNextIn availIn availOut st.zPending st.zFinishQueued
  let st1 : Compressor := { st with
    zNextIn := st.zNextIn + r.consumed,
    zAvailIn := availIn - r.consumed,
    zPending := r.pendingAfter,
    zFinishQueued := r.finishQueuedAfter,
    outbytes := st.outbytes + r.emitted.length,
    payload := st.payload ++ r.emitted,
    currentChunkSize := st.currentChunkSize + r.consumed }
  if r.ret = ZRet.Z_MEM_ERROR then (Status.OOM, st1)
  else if r.ret = ZRet.Z_BUF_ERROR ∨ (r.ret = ZRet.Z_OK ∧ st.outCapacity - st1.outbytes = 0) then
    (Status.MOREOUTPUT, st1)
  else
    let st2 :=
      if done = true ∨ st1.currentChunkSize = CHUNK_SIZE then
        { st1 with chunkOffsets := st1.chunkOffsets ++ [st1.outbytes % U32MOD],
                   currentChunkSize := 0 }
      else st1
    (if done then Status.DONE else Status.CONTINUE, st2)

/-- Lines 210-216 of compressMoreZstd: inputSize = min(left, MAX_INPUT_SIZE). -/
def zstdInputSizeOf (maxInput : Nat) (st : Compressor) : Nat :=
  let left := st.inplen - st.zstdInputPos
  if left ≤ maxInput then left else maxInput

/-- Lines 218-227: clamp inputSize at the chunk boundary. -/
def zstdClampedInputSize (maxInput : Nat) (st : Compressor) : Nat :=
  let a := zstdInputSizeOf maxInput st
  if CHUNK_SIZE ≤ st.currentChunkSize + a then CHUNK_SIZE - st.currentChunkSize
  else a

/-- Whether the zstd step is a flush step. -/
def zstdIsFlushStep (maxInput : Nat) (st : Compressor) : Bool :=
  CHUNK_SIZE ≤ st.currentChunkSize + zstdInputSizeOf maxInput st

/-- Line 230: done = (inputSize == left), after the clamp. -/
def zstdIsDoneStep (maxInput : Nat) (st : Compressor) : Bool :=
  zstdClampedInputSize maxInput st = st.inplen - st.zstdInputPos

/-- Result of one modelled ZSTD_compressStream / ZSTD_flushStream /
ZSTD_endStream call: return value, bytes put into the output span, the
stream's internal input buffer and output queue afterwards, and the number of
input bytes consumed. -/
structure ZstdCallResult where
  ret : Nat
  emitted : List Nat
  bufferedAfter : List Nat
  pendingAfter : List Nat
  consumed : Nat
deriving DecidableEq, Repr

/-- Modelled from the spec (section 4.3): ZSTD_compressStream consumes the
whole input span into the stream's internal buffer and drains internally
pending encoded bytes into the output span; its return value is a size hint
and never an error in the model. -/
def ZSTD_compressStream (B : List Nat) (srcPos srcSize : Nat)
    (buffered pending : List Nat) (outSpace : Nat) : ZstdCallResult :=
  let w := min pending.length outSpace
  { ret := 0, emitted := pending.take w,
    bufferedAfter := buffered ++ (B.drop srcPos).take srcSize,
    pendingAfter := pending.drop w, consumed := srcSize }

/-- Modelled from the spec (section 4.3): ZSTD_flushStream encodes the
buffered input as one complete, independently decodable frame, appends it to
the pending queue, drains the queue into the output span as far as it has
room, and returns the number of bytes still pending (0 when fully flushed). -/
def ZSTD_flushStream (buffered pending : List Nat) (outSpace : Nat) : ZstdCallResult :=
  let pending1 := pending ++ (if buffered = [] then [] else zstdFrameEnc buffered)
  let w := min pending1.length outSpace
  { ret := pending1.length - w, emitted := pending1.take w,
    bufferedAfter := [], pendingAfter := pending1.drop w, consumed := 0 }

/-- Modelled from the spec (section 4.3): ZSTD_endStream terminates the
stream; in the model the final frame is self-terminating, so it behaves as a
flush. Returns 0 exactly when all frame epilogue bytes reached the output. -/
def ZSTD_endStream (buffered pending : List Nat) (outSpace : Nat) : ZstdCallResult :=
  ZSTD_flushStream buffered pending outSpace

/-- Compressor::compressMoreZstd (lines 209-294): compute and clamp
inputSize, run the compress / flush / end calls of the chosen path, account
output position, chunk size and input cursor, return MOREOUTPUT when the
output buffer filled before a non-final step, record the chunk offset, and
return DONE when done (the code does so even when ZSTD_endStream returned
nonzero), else CONTINUE. -/
def compressMoreZstd (maxInput : Nat) (st : Compressor) : Status × Compressor :=
  let inputSize := zstdClampedInputSize maxInput st
  let flush := zstdIsFlushStep maxInput st
  let done := zstdIsDoneStep maxInput st
  let outSpace := st.zstdOutSize - st.zstdOutPos
  let r1 : ZstdCallResult :=
    if (done = true ∨ flush = true) ∧ inputSize = 0 then
      { ret := 0, emitted := [], bufferedAfter := st.zstdBuffered,
        pendingAfter := st.zstdPending, consumed := 0 }
    else
      ZSTD_compressStream st.inp st.zstdInputPos inputSize st.zstdBuffered
        st.zstdPending outSpace
  let step : ZstdCallResult :=
    if done = true ∨ flush = true then
      let r2 :=
        if done then
          ZSTD_endStream r1.bufferedAfter r1.pendingAfter (outSpace - r1.emitted.length)
        else
          ZSTD_flushStream r1.bufferedAfter r1.pendingAfter (outSpace - r1.emitted.length)
      { ret := r2.ret, emitted := r1.emitted ++ r2.emitted,
        bufferedAfter := r2.bufferedAfter, pendingAfter := r2.pendingAfter,
        consumed := r1.consumed }
    else r1
  let written := step.emitted.length
  let st1 : Compressor := { st with
    outbytes := st.outbytes + written,
    payload := st.payload ++ step.emitted,
    zstdOutPos := st.zstdOutPos + written,
    currentChunkSize := st.currentChunkSize + step.consumed,
    zstdInputPos := st.zstdInputPos + step.consumed,
    zstdBuffered := step.bufferedAfter,
    zstdPending := step.pendingAfter }
  if st1.zstdOutPos = st.zstdOutSize ∧ done = false then (Status.MOREOUTPUT, st1)
  else
    let st2 :=
      if done = true ∨ st1.currentChunkSize = CHUNK_SIZE then
        { st1 with chunkOffsets := st1.chunkOffsets ++ [st1.outbytes % U32MOD],
                   currentChunkSize := 0 }
      else st1
    if done = true ∧ step.ret = 0 then (Status.DONE, st2)
    else (if done then Status.DONE else Status.CONTINUE, st2)

/-- Compressor::compressMore: dispatch on the algorithm member. -/
def compressMore (maxInput : Nat) (st : Compressor) : Status × Compressor :=
  if st.alg = 0 then compressMoreZlib maxInput st
  else if st.alg = 1 then compressMoreZstd maxInput st
  else (Status.OOM, st)

/-- Compressor::totalBytesNeeded. -/
def totalBytesNeeded (st : Compressor) : Nat :=
  align4 st.outbytes + 4 * st.chunkOffsets.length

/-- Byte offset at which finish places the chunk-offset table:
AlignBytes(outbytes, sizeof(uint32_t)). -/
def finishTableOffset (st : Compressor) : Nat := align4 st.outbytes

/-- Compressor::finish (lines 300-322): the container bytes. The header's
uint32 compressedBytes field receives the (header-inclusive) outbytes value,
the padding up to the 4-byte-aligned table offset is zeroed, and the
uint32_t chunk offsets follow little-endian. -/
def Compressor.finish (st : Compressor) : List Nat :=
  lenLE4 (st.outbytes % U32MOD) ++ [st.alg % 256, st.level % 256, 0, 0] ++
    st.payload ++ List.replicate (finishTableOffset st - st.outbytes) 0 ++
    st.chunkOffsets.flatMap lenLE4

/-- Repeated compressMore until DONE, with fuel. MOREOUTPUT and OOM abort:
the driving caller modelled here binds one large-enough output buffer. -/
def runCompress (maxInput : Nat) : Nat → Compressor → Option Compressor
  | 0, _ => none
  | fuel + 1, st =>
    match compressMore maxInput st with
    | (Status.DONE, st1) => some st1
    | (Status.CONTINUE, st1) => runCompress maxInput fuel st1
    | _ => none

/-- Output-buffer size the modelled caller allocates: strictly larger than
any outbytes value a run can reach, so the run never returns MOREOUTPUT. -/
def bigCapacity (B : List Nat) : Nat :=
  32 + (CHUNK_SIZE + 8) * (numChunks B.length + 2)

/-- Final compressor state of the pipeline of the spec's section 6:
construct, init, bind a large output buffer, step to DONE. -/
def pipelineState (B : List Nat) (alg level maxInput : Nat) : Option Compressor :=
  match (Compressor.new B alg level).init with
  | none => none
  | some st0 => runCompress maxInput (B.length + 1) (st0.setOutput (bigCapacity B))

/-- The compress pipeline of the spec's section 6: construct, init, bind a
large output buffer, step to DONE, finish into the container. -/
def compress (B : List Nat) (alg level maxInput : Nat) : Option (List Nat) :=
  (pipelineState B alg level maxInput).map Compressor.finish

/-- Result of one modelled inflate call. -/
structure InflateResult where
  ret : ZRet
  produced : List Nat
deriving DecidableEq, Repr

/-- Modelled from the spec: raw inflate of one identity-coded segment with an
output span of outLen bytes. It copies bytes while both spans have room; in
Z_FINISH mode it then requires the end-of-stream marker. Error returns on
malformed non-final segments are modelled optimistically as Z_OK, which only
ever makes decoding succeed more often. -/
def inflateRawSegment (seg : List Nat) (outLen : Nat) (finishMode : Bool) :
    InflateResult :=
  let produced := seg.take outLen
  let rest := seg.drop outLen
  if finishMode then
    if rest = zEndMark then { ret := ZRet.Z_STREAM_END, produced := produced }
    else { ret := ZRet.Z_DATA_ERROR, produced := produced }
  else { ret := ZRet.Z_OK, produced := produced }

/-- First two bytes of a wrapped zlib stream in the model. -/
def zlibWrappedMagic : List Nat := [120, 156]

/-- Modelled from the spec: inflate with the wrapped zlib framing. A stream
that does not begin with the zlib header bytes is a data error and produces
nothing; the raw-deflate payload this compressor emits never begins with
them. -/
def inflateWrapped (input : List Nat) (outLen : Nat) : InflateResult :=
  if input.take 2 = zlibWrappedMagic then
    { ret := ZRet.Z_OK, produced := (input.drop 2).take outLen }
  else { ret := ZRet.Z_DATA_ERROR, produced := [] }

/-- Dispatch of the modelled inflate on the framing the decoder initialized. -/
def inflateWith (framing : ZlibFraming) (input : List Nat) (outLen : Nat)
    (finishMode : Bool) : InflateResult :=
  match framing with
  | ZlibFraming.zlibWrapped => inflateWrapped input outLen
  | ZlibFraming.raw => inflateRawSegment input outLen finishMode

/-- Framing js::DecompressString initializes: it calls inflateInit, hence the
wrapped zlib framing. -/
def DecompressStringFraming : ZlibFraming := inflateInit_framing

/-- Framing js::DecompressStringChunk initializes: it calls
inflateInit2(WindowBits) with WindowBits = -15, hence raw deflate. -/
def DecompressStringChunkFraming : ZlibFraming := inflateInit2_framing WindowBits

/-- Modelled from the spec (section 4.3): one-shot ZSTD_decompress parses a
sequence of complete frames and concatenates their data; anything else is an
error. The fuel is the input length (every frame consumes at least one byte). -/
def zstdParseFrames : Nat → List Nat → Option (List Nat)
  | _, [] => some []
  | 0, _ => none
  | fuel + 1, input =>
    if byteAt input 0 = ZSTD_MAGIC ∧ 5 ≤ input.length then
      let n := readLE4 input 1
      let data := (input.drop 5).take n
      if data.length = n then
        match zstdParseFrames fuel (input.drop (5 + n)) with
        | some rest => some (data ++ rest)
        | none => none
      else none
    else none

/-- Modelled ZSTD_decompress with a destination capacity: errors when the
frames are malformed or the decoded size exceeds the capacity. -/
def ZSTD_decompress (input : List Nat) (dstCapacity : Nat) : Option (List Nat) :=
  match zstdParseFrames input.length input with
  | some out => if out.length ≤ dstCapacity then some out else none
  | none => none

/-- js::DecompressString (lines 324-370): whole-blob decode. Returns the
(success flag, output-buffer content) pair. Requires at least a header,
dispatches on the algorithm tag, and for the zlib tag feeds the whole
container from offset 0 to an inflater with the framing of inflateInit; the
inflate return code is only checked by debug assertions, so the zlib branch
reports success whenever inflater initialization succeeded. The zstd branch
one-shot-decompresses the whole container and requires the decoded size to
equal outlen. Unknown tags fail. -/
def DecompressString (inp : List Nat) (outlen : Nat) : Bool × List Nat :=
  if inp.length < headerSize then (false, [])
  else
    let algorithm := byteAt inp 4
    if algorithm = 0 then
      let r := inflateWith DecompressStringFraming inp outlen true
      (true, r.produced)
    else if algorithm = 1 then
      match ZSTD_decompress inp outlen with
      | some out => (out.length == outlen, out)
      | none => (false, [])
    else (false, [])

/-- Byte offset at which js::DecompressStringChunk reads the chunk-offset
table: AlignBytes(header.compressedBytes, sizeof(uint32_t)). -/
def chunkTableOffset (inp : List Nat) : Nat := align4 (readLE4 inp 0)

/-- js::DecompressStringChunk (lines 372-445): single-chunk decode. Reads the
header, locates the offset table at align4(compressedBytes), computes the
segment bounds with uint32 arithmetic, and dispatches: the zlib branch
raw-inflates the segment (Z_FINISH for the last chunk, whose failed
MOZ_RELEASE_ASSERT is modelled as failure; plain inflate otherwise), the zstd
branch one-shot-decompresses the segment and requires the decoded size to
equal outlen. none models both a false return and a tripped release assert. -/
def DecompressStringChunk (inp : List Nat) (chunk : Nat) (outlen : Nat) :
    Option (List Nat) :=
  let compressedBytes := readLE4 inp 0
  let algorithm := byteAt inp 4
  let tableOff := chunkTableOffset inp
  let compressedStart :=
    if 0 < chunk then readLE4 inp (tableOff + 4 * (chunk - 1)) else headerSize
  let compressedEnd := readLE4 inp (tableOff + 4 * chunk)
  let lastChunk := compressedEnd = compressedBytes
  let seg := (inp.drop compressedStart).take (u32sub compressedEnd compressedStart)
  if algorithm = 0 then
    let r := inflateWith DecompressStringChunkFraming seg outlen lastChunk
    if lastChunk then
      if r.ret = ZRet.Z_STREAM_END then some r.produced else none
    else
      if r.ret = ZRet.Z_MEM_ERROR then none
      else if r.ret = ZRet.Z_OK then some r.produced else none
  else if algorithm = 1 then
    match ZSTD_decompress seg outlen with
    | some out => if out.length = outlen then some out else none
    | none => none
  else none

/-- Mid-run invariant of the zlib compression loop under the big output
buffer: j chunks are complete and flushed, p bytes of chunk j are consumed
and copied, and the stream is between compressMore calls with nothing
pending. -/
def ZlibMid (B : List Nat) (level : Nat) (j p : Nat) (st : Compressor) : Prop :=
  st.alg = 0 ∧ st.level = level ∧ st.inp = B ∧ st.inplen = B.length ∧
  st.outCapacity = bigCapacity B ∧
  st.zNextIn = CHUNK_SIZE * j + p ∧ st.zAvailIn = 0 ∧ st.zPending = [] ∧
  st.zFinishQueued = false ∧
  st.currentChunkSize = p ∧
  st.payload = framesUpTo B 0 j ++ (B.drop (CHUNK_SIZE * j)).take p ∧
  st.outbytes = headerSize + st.payload.length ∧
  st.chunkOffsets = offsetsUpTo B 0 j ∧
  CHUNK_SIZE * j + p < B.length ∧ p < CHUNK_SIZE

/-- Mid-run invariant of the zstd compression loop under the big output
buffer: j chunks are complete and flushed as frames, p bytes of chunk j are
consumed into the stream's internal buffer. -/
def ZstdMid (B : List Nat) (level : Nat) (j p : Nat) (st : Compressor) : Prop :=
  st.alg = 1 ∧ st.level = level ∧ st.inp = B ∧ st.inplen = B.length ∧
  st.zstdOutSize = bigCapacity B - headerSize ∧
  st.zstdInputPos = CHUNK_SIZE * j + p ∧
  st.zstdBuffered = (B.drop (CHUNK_SIZE * j)).take p ∧ st.zstdPending = [] ∧
  st.currentChunkSize = p ∧
  st.payload = framesUpTo B 1 j ∧
  st.zstdOutPos = st.payload.length ∧
  st.outbytes = headerSize + st.payload.length ∧
  st.chunkOffsets = offsetsUpTo B 1 j ∧
  CHUNK_SIZE * j + p < B.length ∧ p < CHUNK_SIZE

/-- Concrete run: a zstd compressor on the one-byte input [65], bound to an
output buffer of 9 bytes, so the final step has a single byte of output room. -/
def zstdTightState : Compressor :=
  (((Compressor.new [65] 1 0).init).getD (Compressor.new [65] 1 0)).setOutput 9

/-- Concrete run: input of the tight-buffer zlib run. -/
def zlibTightIn : List Nat := List.replicate 5 7

/-- Concrete run: a zlib compressor on five bytes, bound to an output buffer
of 9 bytes, so the first step can write a single byte before filling it. -/
def zlibTightState : Compressor :=
  (((Compressor.new zlibTightIn 0 0).init).getD (Compressor.new zlibTightIn 0 0)).setOutput 9

/-- Concrete run: the state after the first (MOREOUTPUT) step of the
tight-buffer zlib run, rebound to a 1000-byte output buffer. -/
def zlibResumedState : Compressor :=
  ((compressMoreZlib 2 zlibTightState).2).setOutput 1000

/-- Concrete malformed container: a valid-length header with algorithm tag 0
whose payload region is not a wrapped zlib stream. -/
def garbledZlibContainer : List Nat := [0, 0, 0, 0, 0, 0, 0, 0]

/-- Concrete run: final compressor state of the pipeline on input [65] with
algorithm 0 and level 7, used to witness the container-shape theorems. -/
def smallRunState : Compressor :=
  (pipelineState [65] 0 7 2048).getD (Compressor.new [] 0 0)

/-- Length of the oversized input: 2^32 - 2, the largest length
Compressor::init accepts. -/
def hugeLen : Nat := 4294967294

/-- Oversized input: 2^32 - 2 bytes, zero except for the four bytes at
positions 262128..262131, which hold the little-endian value 9. Those are the
bytes the chunk decoder misreads as the first offset-table entry once the
32-bit compressedBytes header field has truncated. -/
def hugeIn : List Nat :=
  List.replicate 262128 0 ++ [9, 0, 0, 0] ++ List.replicate (hugeLen - 262132) 0

/-! ## Helper lemmas -/

theorem byteAt_append_left (a b : List Nat) (i : Nat) (h : i < a.length) :
    byteAt (a ++ b) i = byteAt a i :=
  List.getD_append a b 0 i h

theorem byteAt_append_right (a b : List Nat) (i : Nat) :
    byteAt (a ++ b) (a.length + i) = byteAt b i := by
  unfold byteAt
  rw [List.getD_append_right a b 0 (a.length + i) (by omega)]
  congr 1
  omega

theorem readLE4_append_right (a b : List Nat) (i : Nat) :
    readLE4 (a ++ b) (a.length + i) = readLE4 b i := by
  unfold readLE4
  rw [show a.length + i + 1 = a.length + (i + 1) by omega,
    show a.length + i + 2 = a.length + (i + 2) by omega,
    show a.length + i + 3 = a.length + (i + 3) by omega,
    byteAt_append_right, byteAt_append_right, byteAt_append_right, byteAt_append_right]

theorem readLE4_lenLE4 (n : Nat) (rest : List Nat) :
    readLE4 (lenLE4 n ++ rest) 0 = n % U32MOD := by
  unfold readLE4 lenLE4 byteAt U32MOD
  simp only [List.cons_append, List.nil_append, List.getD_cons_zero, List.getD_cons_succ]
  omega

theorem length_lenLE4 (n : Nat) : (lenLE4 n).length = 4 := rfl

theorem readLE4_lt (l : List Nat) (i : Nat) (hl : ∀ j, byteAt l j < 256) :
    readLE4 l i < U32MOD := by
  unfold readLE4 U32MOD
  have h0 := hl i
  have h1 := hl (i + 1)
  have h2 := hl (i + 2)
  have h3 := hl (i + 3)
  omega

theorem readLE4_flatMap_lenLE4 (l : List Nat) (k : Nat) (h : k < l.length) :
    readLE4 (l.flatMap lenLE4) (4 * k) = l.getD k 0 % U32MOD := by
  induction l generalizing k with
  | nil => simp at h
  | cons x xs ih =>
    cases k with
    | zero =>
      rw [List.flatMap_cons]
      simpa using readLE4_lenLE4 x (xs.flatMap lenLE4)
    | succ k =>
      rw [List.flatMap_cons,
        show 4 * (k + 1) = (lenLE4 x).length + 4 * k by rw [length_lenLE4]; omega,
        readLE4_append_right]
      simpa using ih k (by simpa using h)

theorem flatMap_range_succ (f : Nat → List Nat) (n : Nat) :
    (List.range (n + 1)).flatMap f = (List.range n).flatMap f ++ f n := by
  rw [List.range_succ, List.flatMap_append]
  simp

theorem numChunks_pos (L : Nat) : 0 < numChunks L := by
  unfold numChunks CHUNK_SIZE
  omega

theorem lt_numChunks_iff (L i : Nat) (hL : 1 ≤ L) :
    i < numChunks L ↔ CHUNK_SIZE * i < L := by
  unfold numChunks CHUNK_SIZE
  omega

theorem chunkSliceOf_length (B : List Nat) (i : Nat) :
    (chunkSliceOf B i).length = min CHUNK_SIZE (B.length - CHUNK_SIZE * i) := by
  unfold chunkSliceOf
  simp [List.length_take, List.length_drop, Nat.min_comm]

theorem last_chunk_iff (L i : Nat) (hL : 1 ≤ L) (hi : i < numChunks L) :
    i + 1 = numChunks L ↔ L ≤ CHUNK_SIZE * (i + 1) := by
  constructor
  · intro h
    by_contra hc
    have : i + 1 < numChunks L := (lt_numChunks_iff L (i + 1) hL).mpr (by omega)
    omega
  · intro h
    have h1 : ¬ (i + 1 < numChunks L) := by
      intro hc
      have := (lt_numChunks_iff L (i + 1) hL).mp hc
      omega
    omega

/-! ## Claim C4: mixed inflate framing in the two decode paths -/

/-- C4 (code_bug exhibit): the whole-blob zlib decode path initializes its
inflater with inflateInit, the wrapped zlib framing, while the single-chunk
path initializes with inflateInit2(WindowBits) = raw deflate. The claim that
the whole-blob path uses raw framing and that the two paths never mix wrapped
and raw framing is false on the code. -/
theorem c4_framingMismatch :
    DecompressStringFraming = ZlibFraming.zlibWrapped ∧
    DecompressStringChunkFraming = ZlibFraming.raw ∧
    DecompressStringFraming ≠ DecompressStringChunkFraming := by
  decide

/-! ## Claim C6: init failure conditions -/

/-- C6 (counterexample): the input length 2^32 - 1 = UINT32_MAX satisfies the
claim's conditions (1 <= len < 2^32, recognized algorithm, and backend
allocation modelled as succeeding), yet init returns false, because the code
rejects inplen >= UINT32_MAX rather than inplen >= 2^32. -/
theorem c6_counterexample :
    1 ≤ 4294967295 ∧ 4294967295 < 2 ^ 32 ∧ initOK 4294967295 0 = false := by
  decide

/-- C6 (amended): with backend allocation modelled as succeeding, init
returns true exactly when the input length is below UINT32_MAX = 2^32 - 1
(not 2^32) and the algorithm tag is 0 or 1. -/
theorem c6_init_iff (inplen alg : Nat) :
    initOK inplen alg = true ↔ (inplen < UINT32_MAX ∧ (alg = 0 ∨ alg = 1)) := by
  unfold initOK UINT32_MAX
  split_ifs with h1 h2 h3 <;> simp <;> omega

/-! ## Claim C2: whole-blob round trip -/

/-- C2 (code_bug exhibit): compressing the one-byte blob [65] with either
algorithm and whole-blob-decompressing the resulting container does not give
back [65]. The zlib path hands the whole container (header included) to a
wrapped-framing inflater and reports success with garbage output; the zstd
path hands the whole container (header included) to ZSTD_decompress, which
rejects it. -/
theorem c2_wholeBlobRoundTripFails :
    (compress [65] 0 0 2048).isSome = true ∧
    Option.all (fun c => DecompressString c 1 == (true, [65]))
      (compress [65] 0 0 2048) = false ∧
    (compress [65] 1 0 2048).isSome = true ∧
    Option.all (fun c => DecompressString c 1 == (true, [65]))
      (compress [65] 1 0 2048) = false := by
  decide

/-! ## Claim C3: header integrity -/

/-- C3 (counterexample): for the compression of [65] with the zlib algorithm
the final outbytes is 10 and the header's compressedBytes field is also 10,
not 10 - sizeof(Header) = 2: finish stores the header-inclusive outbytes
value, so the claim's equation compressedBytes == outbytes - sizeof(Header)
fails. -/
theorem c3_counterexample :
    (pipelineState [65] 0 0 2048).isSome = true ∧
    Option.all (fun st => readLE4 st.finish 0 == st.outbytes - headerSize)
      (pipelineState [65] 0 0 2048) = false := by
  decide

/-! ## Claim C5: zstd completion condition -/

/-- C5 (code_bug exhibit): on the final step of the tight-buffer zstd run the
output buffer fills before the frame epilogue is flushed, so the modelled
ZSTD_endStream returns nonzero (its return value is the number of still
pending bytes, and five bytes remain queued), yet compressMoreZstd returns
DONE through its final fallthrough instead of MOREOUTPUT. -/
theorem c5_doneDespiteUnflushedEpilogue :
    (compressMoreZstd 2048 zstdTightState).1 = Status.DONE ∧
    (compressMoreZstd 2048 zstdTightState).2.zstdPending ≠ [] := by
  decide

/-! ## Claim C7: step-size and flush discipline -/

/-- C7 (counterexample): after the first step of the tight-buffer zlib run
returns MOREOUTPUT with one of its two negotiated bytes unconsumed, the next
step offers the stale avail_in of 1 byte to deflate, not
min(remaining, MAX_INPUT_SIZE) = min(4, 2) = 2: the claim that every step
offers min(remaining, MAX_INPUT_SIZE) fails. -/
theorem c7_counterexample :
    (compressMoreZlib 2 zlibTightState).1 = Status.MOREOUTPUT ∧
    zlibResumedState.zAvailIn = 1 ∧
    zlibNegotiatedAvailIn 2 zlibResumedState = 1 ∧
    zlibClampedAvailIn 2 zlibResumedState = 1 ∧
    min (zlibResumedState.inplen - zlibResumedState.zNextIn) 2 = 2 := by
  decide

/-! ## Claim C9: decoder rejection of malformed input -/

/-- C9 (counterexample): on a container with algorithm tag 0 whose body is
not a wrapped zlib stream, the backend reports a decode error
(Z_DATA_ERROR), yet DecompressString returns true: the zlib branch never
checks the inflate return code outside debug assertions. -/
theorem c9_counterexample :
    (inflateWith DecompressStringFraming garbledZlibContainer 1 true).ret =
      ZRet.Z_DATA_ERROR ∧
    (DecompressString garbledZlibContainer 1).1 = true := by
  decide

/-! ## Claim C8: offset table invariants -/

/-- C8 (counterexample): for the container of the one-chunk input [65] under
zlib the last offset-table entry is 10, which equals the compressedBytes
header field itself (the field already includes sizeof(Header)), not
sizeof(Header) + compressedBytes = 18 as the claim states. -/
theorem c8_counterexample :
    (compress [65] 0 0 2048).isSome = true ∧
    Option.all (fun c =>
      readLE4 c (chunkTableOffset c + 4 * (numChunks 1 - 1)) ==
        headerSize + readLE4 c 0) (compress [65] 0 0 2048) = false := by
  decide

/-! ## Container-writer lemmas -/

theorem finish_decomp (st : Compressor) :
    st.finish = lenLE4 (st.outbytes % U32MOD) ++
      ([st.alg % 256, st.level % 256, 0, 0] ++
        (st.payload ++ (List.replicate (finishTableOffset st - st.outbytes) 0 ++
          st.chunkOffsets.flatMap lenLE4))) := by
  unfold Compressor.finish
  simp [List.append_assoc]

theorem finish_readLE4_zero (st : Compressor) :
    readLE4 st.finish 0 = st.outbytes % U32MOD := by
  rw [finish_decomp, readLE4_lenLE4]
  unfold U32MOD
  omega

theorem finish_algByte (st : Compressor) : byteAt st.finish 4 = st.alg % 256 := by
  rw [finish_decomp]
  have h4 : (4 : Nat) = (lenLE4 (st.outbytes % U32MOD)).length + 0 := by
    rw [length_lenLE4]
  rw [h4, byteAt_append_right]
  rfl

theorem finish_levelByte (st : Compressor) : byteAt st.finish 5 = st.level % 256 := by
  rw [finish_decomp]
  have h5 : (5 : Nat) = (lenLE4 (st.outbytes % U32MOD)).length + 1 := by
    rw [length_lenLE4]
  rw [h5, byteAt_append_right]
  rfl

/-! ## Step-preservation lemmas -/

theorem compressMoreZlib_preserves (m : Nat) (st : Compressor) :
    (compressMoreZlib m st).2.alg = st.alg ∧
    (compressMoreZlib m st).2.level = st.level ∧
    (compressMoreZlib m st).2.inp = st.inp ∧
    (compressMoreZlib m st).2.inplen = st.inplen ∧
    (compressMoreZlib m st).2.outCapacity = st.outCapacity ∧
    (compressMoreZlib m st).2.zstdOutSize = st.zstdOutSize := by
  unfold compressMoreZlib
  dsimp only
  repeat' split
  all_goals simp

theorem compressMoreZstd_preserves (m : Nat) (st : Compressor) :
    (compressMoreZstd m st).2.alg = st.alg ∧
    (compressMoreZstd m st).2.level = st.level ∧
    (compressMoreZstd m st).2.inp = st.inp ∧
    (compressMoreZstd m st).2.inplen = st.inplen ∧
    (compressMoreZstd m st).2.outCapacity = st.outCapacity ∧
    (compressMoreZstd m st).2.zstdOutSize = st.zstdOutSize := by
  unfold compressMoreZstd
  dsimp only
  repeat' split
  all_goals simp

theorem compressMore_preserves (m : Nat) (st : Compressor) :
    (compressMore m st).2.alg = st.alg ∧
    (compressMore m st).2.level = st.level ∧
    (compressMore m st).2.inp = st.inp ∧
    (compressMore m st).2.inplen = st.inplen ∧
    (compressMore m st).2.outCapacity = st.outCapacity ∧
    (compressMore m st).2.zstdOutSize = st.zstdOutSize := by
  unfold compressMore
  split
  · exact compressMoreZlib_preserves m st
  · split
    · exact compressMoreZstd_preserves m st
    · simp

theorem runCompress_preserves (m : Nat) (fuel : Nat) (st stF : Compressor)
    (h : runCompress m fuel st = some stF) :
    stF.alg = st.alg ∧ stF.level = st.level ∧ stF.inp = st.inp ∧
    stF.inplen = st.inplen := by
  induction fuel generalizing st with
  | zero => simp [runCompress] at h
  | succ n ih =>
    rw [runCompress] at h
    rcases hc : compressMore m st with ⟨status, st1⟩
    rw [hc] at h
    have hp := compressMore_preserves m st
    rw [hc] at hp
    cases status with
    | DONE =>
      simp at h
      subst h
      exact ⟨hp.1, hp.2.1, hp.2.2.1, hp.2.2.2.1⟩
    | CONTINUE =>
      simp at h
      have hr := ih st1 h
      exact ⟨hr.1.trans hp.1, hr.2.1.trans hp.2.1, hr.2.2.1.trans hp.2.2.1,
        hr.2.2.2.trans hp.2.2.2.1⟩
    | MOREOUTPUT => simp at h
    | OOM => simp at h

theorem pipelineState_preserves (B : List Nat) (alg level maxInput : Nat)
    (st : Compressor) (h : pipelineState B alg level maxInput = some st) :
    st.alg = alg ∧ st.level = level ∧ st.inp = B ∧ st.inplen = B.length := by
  unfold pipelineState at h
  split at h
  · simp at h
  · rename_i st0 hinit
    have hr := runCompress_preserves maxInput (B.length + 1) _ _ h
    have h0 : st0.alg = alg ∧ st0.level = level ∧ st0.inp = B ∧
        st0.inplen = B.length := by
      unfold Compressor.init at hinit
      split at hinit
      · cases hinit
        simp [Compressor.new]
      · cases hinit
    simp only [Compressor.setOutput] at hr
    exact ⟨hr.1.trans h0.1, hr.2.1.trans h0.2.1, hr.2.2.1.trans h0.2.2.1,
      hr.2.2.2.trans h0.2.2.2⟩

/-! ## Amended claim theorems C3, C10, C9, C7 -/

/-- C3 (amended): after finish, the header's 32-bit compressedBytes field
holds the final outbytes value itself, which includes sizeof(Header), reduced
mod 2^32 by the uint32 store; the algorithm and level header bytes equal the
constructor arguments. -/
theorem c3_headerIntegrityAmended (B : List Nat) (alg level maxInput : Nat)
    (st : Compressor)
    (halg : alg < 256) (hlevel : level < 256)
    (hrun : pipelineState B alg level maxInput = some st) :
    readLE4 st.finish 0 = st.outbytes % U32MOD ∧
    byteAt st.finish 4 = alg ∧
    byteAt st.finish 5 = level := by
  have hp := pipelineState_preserves B alg level maxInput st hrun
  refine ⟨finish_readLE4_zero st, ?_, ?_⟩
  · rw [finish_algByte, hp.1, Nat.mod_eq_of_lt halg]
  · rw [finish_levelByte, hp.2.1, Nat.mod_eq_of_lt hlevel]

/-- C3 (witness): the amended header-integrity theorem applied to the
concrete run on [65] with algorithm 0, level 7. -/
theorem c3_witness :
    readLE4 smallRunState.finish 0 = smallRunState.outbytes % U32MOD ∧
    byteAt smallRunState.finish 4 = 0 ∧
    byteAt smallRunState.finish 5 = 7 :=
  c3_headerIntegrityAmended [65] 0 7 2048 smallRunState (by decide) (by decide)
    (by decide)

/-- C10: for every container a completed compression produces whose final
outbytes fits in 32 bits, the offset at which finish writes the chunk-offset
table, align4(outbytes), equals the offset at which the single-chunk decoder
reads it, align4(header.compressedBytes), because finish stores the
header-inclusive outbytes value into that field. -/
theorem c10_tableOffsetAgreement (B : List Nat) (alg level maxInput : Nat)
    (st : Compressor)
    (_hrun : pipelineState B alg level maxInput = some st)
    (hfit : st.outbytes < U32MOD) :
    chunkTableOffset st.finish = finishTableOffset st := by
  unfold chunkTableOffset finishTableOffset
  rw [finish_readLE4_zero, Nat.mod_eq_of_lt hfit]

/-- C10 (witness): the table-offset agreement applied to the concrete run on
[65]. -/
theorem c10_witness :
    chunkTableOffset smallRunState.finish = finishTableOffset smallRunState :=
  c10_tableOffsetAgreement [65] 0 7 2048 smallRunState (by decide) (by decide)

/-- C9 (amended): the whole-blob decoder returns false when the input is
shorter than the header, when the algorithm tag is neither 0 nor 1, and, on
the zstd path, exactly when ZSTD_decompress fails or decodes a size other
than the expected output length; the zlib path however returns true whenever
inflater initialization succeeds, ignoring the backend's decode result. -/
theorem c9_rejectionAmended (inp : List Nat) (outlen : Nat) :
    (inp.length < headerSize → (DecompressString inp outlen).1 = false) ∧
    (byteAt inp 4 ≠ 0 → byteAt inp 4 ≠ 1 → (DecompressString inp outlen).1 = false) ∧
    (headerSize ≤ inp.length → byteAt inp 4 = 1 →
      ((DecompressString inp outlen).1 = true ↔
        ∃ out, ZSTD_decompress inp outlen = some out ∧ out.length = outlen)) ∧
    (headerSize ≤ inp.length → byteAt inp 4 = 0 →
      (DecompressString inp outlen).1 = true) := by
  refine ⟨fun h1 => by simp [DecompressString, h1], ?_, ?_, ?_⟩
  · intro h2 h3
    by_cases h1 : inp.length < headerSize
    · simp [DecompressString, h1]
    · simp [DecompressString, h1, h2, h3]
  · intro h1 h3
    rcases hz : ZSTD_decompress inp outlen with _ | out
    · simp [DecompressString, Nat.not_lt.mpr h1, h3, hz]
    · simp [DecompressString, Nat.not_lt.mpr h1, h3, hz]
  · intro h1 h2
    simp [DecompressString, Nat.not_lt.mpr h1, h2]

/-- C9 (witness): the amended rejection theorem applied to a three-byte
input, too short for a header. -/
theorem c9_witness : (DecompressString [1, 2, 3] 5).1 = false :=
  (c9_rejectionAmended [1, 2, 3] 5).1 (by decide)

theorem compressMoreZlib_chunk_le (maxInput : Nat) (st : Compressor)
    (hcc : st.currentChunkSize ≤ CHUNK_SIZE) :
    (compressMoreZlib maxInput st).2.currentChunkSize ≤ CHUNK_SIZE := by
  have hclamp : st.currentChunkSize + zlibClampedAvailIn maxInput st ≤ CHUNK_SIZE := by
    unfold zlibClampedAvailIn
    dsimp only
    split <;> omega
  have hcons : (deflateModel st.inp (zlibModeOf maxInput st) st.zNextIn
      (zlibClampedAvailIn maxInput st) (st.outCapacity - st.outbytes)
      st.zPending st.zFinishQueued).consumed ≤ zlibClampedAvailIn maxInput st := by
    unfold deflateModel
    dsimp only
    omega
  unfold compressMoreZlib
  dsimp only
  repeat' split
  all_goals simp
  all_goals omega

theorem compressMoreZstd_chunk_le (maxInput : Nat) (st : Compressor)
    (hcc : st.currentChunkSize ≤ CHUNK_SIZE) :
    (compressMoreZstd maxInput st).2.currentChunkSize ≤ CHUNK_SIZE := by
  have hclamp : st.currentChunkSize + zstdClampedInputSize maxInput st ≤ CHUNK_SIZE := by
    unfold zstdClampedInputSize
    dsimp only
    split <;> omega
  unfold compressMoreZstd
  dsimp only
  repeat' split
  all_goals simp [ZSTD_compressStream, ZSTD_endStream, ZSTD_flushStream]
  all_goals omega

/-- C7 (amended): the bytes offered to the backend are
min(remaining, MAX_INPUT_SIZE) in every step entered with no pending input
(zlib avail_in = 0) or with at most MAX_INPUT_SIZE remaining; after a
MOREOUTPUT return the zlib step instead re-offers the pending avail_in. The
zstd step always offers min(remaining, MAX_INPUT_SIZE). When the offer would
reach the chunk boundary it is clamped to exactly CHUNK_SIZE minus
current_chunk_size and the backend is invoked with a full-flush directive
(finalize when the step consumes the last input), and no step ever drives
current_chunk_size past CHUNK_SIZE. -/
theorem c7_stepDisciplineAmended (maxInput : Nat) (st : Compressor)
    (hfresh : st.zAvailIn = 0 ∨ st.inplen - st.zNextIn ≤ maxInput)
    (hcc : st.currentChunkSize ≤ CHUNK_SIZE) :
    zlibNegotiatedAvailIn maxInput st = min (st.inplen - st.zNextIn) maxInput ∧
    zstdInputSizeOf maxInput st = min (st.inplen - st.zstdInputPos) maxInput ∧
    (CHUNK_SIZE ≤ st.currentChunkSize + zlibNegotiatedAvailIn maxInput st →
      zlibClampedAvailIn maxInput st = CHUNK_SIZE - st.currentChunkSize ∧
      (zlibIsDoneStep maxInput st = false → zlibModeOf maxInput st = ZMode.FULL_FLUSH) ∧
      (zlibIsDoneStep maxInput st = true → zlibModeOf maxInput st = ZMode.FINISH)) ∧
    (CHUNK_SIZE ≤ st.currentChunkSize + zstdInputSizeOf maxInput st →
      zstdClampedInputSize maxInput st = CHUNK_SIZE - st.currentChunkSize) ∧
    (compressMoreZlib maxInput st).2.currentChunkSize ≤ CHUNK_SIZE ∧
    (compressMoreZstd maxInput st).2.currentChunkSize ≤ CHUNK_SIZE := by
  refine ⟨?_, ?_, ?_, ?_, compressMoreZlib_chunk_le maxInput st hcc,
    compressMoreZstd_chunk_le maxInput st hcc⟩
  · unfold zlibNegotiatedAvailIn
    dsimp only
    rcases hfresh with h | h
    · rw [h]
      split
      · omega
      · rw [if_pos rfl]
        omega
    · rw [if_pos h]
      omega
  · unfold zstdInputSizeOf
    dsimp only
    split <;> omega
  · intro hge
    refine ⟨by unfold zlibClampedAvailIn; dsimp only; rw [if_pos hge], ?_, ?_⟩
    · intro hdone
      unfold zlibModeOf
      rw [hdone]
      simp [zlibIsFlushStep, hge]
    · intro hdone
      unfold zlibModeOf
      rw [hdone]
      simp
  · intro hge
    unfold zstdClampedInputSize
    dsimp only
    rw [if_pos hge]

/-- C7 (witness): the amended step-discipline theorem applied to the
concrete tight-buffer zlib state. -/
theorem c7_witness :
    zlibNegotiatedAvailIn 2 zlibTightState =
      min (zlibTightState.inplen - zlibTightState.zNextIn) 2 ∧
    (compressMoreZlib 2 zlibTightState).2.currentChunkSize ≤ CHUNK_SIZE :=
  ⟨(c7_stepDisciplineAmended 2 zlibTightState (Or.inl (by decide)) (by decide)).1,
   (c7_stepDisciplineAmended 2 zlibTightState (Or.inl (by decide)) (by decide)).2.2.2.2.1⟩

end Compression

namespace Compression

theorem chunkSliceOf_length_le (B : List Nat) (j : Nat) :
    (chunkSliceOf B j).length ≤ CHUNK_SIZE := by
  rw [chunkSliceOf_length]
  omega

theorem zFrame_length_le (B : List Nat) (j : Nat) :
    (zFrame B j).length ≤ CHUNK_SIZE + 4 := by
  unfold zFrame
  rw [List.length_append]
  have h := chunkSliceOf_length_le B j
  split <;> simp [zEndMark, zFlushMark] <;> omega

theorem zstdFrameOf_length_le (B : List Nat) (j : Nat) :
    (zstdFrameOf B j).length ≤ CHUNK_SIZE + 5 := by
  unfold zstdFrameOf zstdFrameEnc
  have h := chunkSliceOf_length_le B j
  simp [lenLE4]
  omega

theorem frameOf_length_le (B : List Nat) (alg j : Nat) :
    (frameOf B alg j).length ≤ CHUNK_SIZE + 8 := by
  unfold frameOf
  split
  · have := zFrame_length_le B j
    omega
  · have := zstdFrameOf_length_le B j
    omega

theorem framesUpTo_succ (B : List Nat) (alg j : Nat) :
    framesUpTo B alg (j + 1) = framesUpTo B alg j ++ frameOf B alg j := by
  unfold framesUpTo
  exact flatMap_range_succ (frameOf B alg) j

theorem framesUpTo_length_le (B : List Nat) (alg j : Nat) :
    (framesUpTo B alg j).length ≤ (CHUNK_SIZE + 8) * j := by
  induction j with
  | zero => simp [framesUpTo]
  | succ n ih =>
    rw [framesUpTo_succ, List.length_append]
    have := frameOf_length_le B alg n
    have hm : (CHUNK_SIZE + 8) * (n + 1) = (CHUNK_SIZE + 8) * n + (CHUNK_SIZE + 8) := by ring
    omega

theorem offsetsUpTo_succ (B : List Nat) (alg j : Nat) :
    offsetsUpTo B alg (j + 1) = offsetsUpTo B alg j ++
      [(headerSize + (framesUpTo B alg (j + 1)).length) % U32MOD] := by
  unfold offsetsUpTo
  rw [List.range_succ, List.map_append]
  simp

theorem zlibPayload_eq_framesUpTo (B : List Nat) :
    zlibPayload B = framesUpTo B 0 (numChunks B.length) := by
  unfold zlibPayload framesUpTo frameOf
  simp

theorem zstdPayload_eq_framesUpTo (B : List Nat) :
    zstdPayload B = framesUpTo B 1 (numChunks B.length) := by
  unfold zstdPayload framesUpTo frameOf
  simp

theorem deflateModel_ample (B : List Nat) (mode : ZMode)
    (nextIn availIn availOut : Nat) (h : availIn + 4 < availOut) :
    deflateModel B mode nextIn availIn availOut [] false =
      { ret := if mode = ZMode.FINISH then ZRet.Z_STREAM_END else ZRet.Z_OK,
        emitted := (B.drop nextIn).take availIn ++
          (if mode = ZMode.FINISH then zEndMark
           else if mode = ZMode.FULL_FLUSH then zFlushMark else []),
        consumed := availIn,
        pendingAfter := [],
        finishQueuedAfter := if mode = ZMode.FINISH then true else false } := by
  have hmin : min availIn availOut = availIn := by omega
  cases mode with
  | NO_FLUSH =>
    unfold deflateModel
    dsimp only
    simp only [List.length_nil, Nat.zero_min, List.take_nil, List.drop_nil,
      List.nil_append, Nat.sub_zero, hmin, Nat.sub_self]
    simp
  | FULL_FLUSH =>
    unfold deflateModel
    dsimp only
    simp only [List.length_nil, Nat.zero_min, List.take_nil, List.drop_nil,
      List.nil_append, Nat.sub_zero, hmin, Nat.sub_self]
    have hw3 : min (zFlushMark.length) (availOut - availIn) = zFlushMark.length := by
      simp [zFlushMark]
      omega
    simp [hw3, zFlushMark]
    omega
  | FINISH =>
    unfold deflateModel
    dsimp only
    simp only [List.length_nil, Nat.zero_min, List.take_nil, List.drop_nil,
      List.nil_append, Nat.sub_zero, hmin, Nat.sub_self]
    have hw3 : min (zEndMark.length) (availOut - availIn) = zEndMark.length := by
      simp [zEndMark]
      omega
    simp [hw3, zEndMark]
    omega

end Compression

namespace Compression

set_option maxHeartbeats 1000000

theorem zlib_step (B : List Nat) (level maxInput : Nat) (j p : Nat)
    (st : Compressor) (hmi : 1 ≤ maxInput)
    (hI : ZlibMid B level j p st) :
    (∃ j2 p2 st2, compressMoreZlib maxInput st = (Status.CONTINUE, st2) ∧
       ZlibMid B level j2 p2 st2 ∧
       CHUNK_SIZE * j + p < CHUNK_SIZE * j2 + p2) ∨
    (∃ st2, compressMoreZlib maxInput st = (Status.DONE, st2) ∧
       st2.payload = zlibPayload B ∧
       st2.outbytes = headerSize + (zlibPayload B).length ∧
       st2.chunkOffsets = offsetsUpTo B 0 (numChunks B.length)) := by
  obtain ⟨halg, hlevel, hinp, hinplen, hcap, hnext, havail, hpend, hfq, hccs,
    hpayload, houtb, hoffs, hlt, hpc⟩ := hI
  have hCpos : 0 < CHUNK_SIZE := by
    unfold CHUNK_SIZE
    omega
  have hplen : st.payload.length ≤ (CHUNK_SIZE + 8) * j + p := by
    rw [hpayload, List.length_append]
    have h1 := framesUpTo_length_le B 0 j
    have h2 : ((B.drop (CHUNK_SIZE * j)).take p).length ≤ p := by
      simp
    omega
  have hjN : j < numChunks B.length := by
    rw [lt_numChunks_iff B.length j (by omega)]
    omega
  have hcavail : CHUNK_SIZE + 5 ≤ st.outCapacity - st.outbytes := by
    have h2 : j + 1 ≤ numChunks B.length := hjN
    rw [hcap, houtb]
    simp only [bigCapacity, CHUNK_SIZE, headerSize] at hplen hpc h2 ⊢
    omega
  have ha0 : zlibNegotiatedAvailIn maxInput st =
      min (B.length - (CHUNK_SIZE * j + p)) maxInput := by
    unfold zlibNegotiatedAvailIn
    rw [hinplen, hnext, havail]
    dsimp only
    split
    · omega
    · rw [if_pos rfl]
      omega
  set A0 := min (B.length - (CHUNK_SIZE * j + p)) maxInput with hA0def
  have hA0left : A0 ≤ B.length - (CHUNK_SIZE * j + p) := by
    rw [hA0def]
    omega
  have hA0pos : 1 ≤ A0 := by
    rw [hA0def]
    omega
  have hacl : zlibClampedAvailIn maxInput st =
      if CHUNK_SIZE ≤ p + A0 then CHUNK_SIZE - p else A0 := by
    unfold zlibClampedAvailIn
    rw [ha0, hccs]
  by_cases hdc : CHUNK_SIZE ≤ p + A0
  · -- clamped to the chunk boundary
    have hacl2 : zlibClampedAvailIn maxInput st = CHUNK_SIZE - p := by
      rw [hacl, if_pos hdc]
    have hCple : CHUNK_SIZE - p ≤ B.length - (CHUNK_SIZE * j + p) := by omega
    by_cases hdone : CHUNK_SIZE - p = B.length - (CHUNK_SIZE * j + p)
    · -- finish step: the final chunk ends exactly at the chunk boundary
      have hdoneb : zlibIsDoneStep maxInput st = true := by
        unfold zlibIsDoneStep
        rw [hacl2, hinplen, hnext]
        simp [hdone]
      have hmode : zlibModeOf maxInput st = ZMode.FINISH := by
        unfold zlibModeOf
        rw [hdoneb]
        rfl
      have hple : p + (CHUNK_SIZE - p) ≤ CHUNK_SIZE := by omega
      have hmul : CHUNK_SIZE * (j + 1) = CHUNK_SIZE * j + CHUNK_SIZE := by ring
      have hjN1 : j + 1 = numChunks B.length := by
        have h3 : ¬ (j + 1 < numChunks B.length) := by
          intro hc
          have := (lt_numChunks_iff B.length (j + 1) (by omega)).mp hc
          omega
        omega
      have hframe : zFrame B j = chunkSliceOf B j ++ zEndMark := by
        unfold zFrame
        rw [if_pos hjN1]
      have hdl : (B.drop (CHUNK_SIZE * j)).length = p + (CHUNK_SIZE - p) := by
        simp
        omega
      have hslice : chunkSliceOf B j =
          (B.drop (CHUNK_SIZE * j)).take p ++
            (B.drop (CHUNK_SIZE * j + p)).take (CHUNK_SIZE - p) := by
        have h1 := List.take_add (B.drop (CHUNK_SIZE * j)) p (CHUNK_SIZE - p)
        rw [List.drop_drop] at h1
        rw [List.take_of_length_le (by omega)] at h1
        unfold chunkSliceOf
        rw [List.take_of_length_le (by omega)]
        exact h1
      have htk : ((B.drop (CHUNK_SIZE * j + p)).take (CHUNK_SIZE - p)).length =
          (CHUNK_SIZE - p) := by
        simp [List.length_take, List.length_drop]
        omega
      have hlen1 : ((B.drop (CHUNK_SIZE * j)).take p).length = p := by
        simp [List.length_take, List.length_drop]
        omega
      have hr := deflateModel_ample B ZMode.FINISH (CHUNK_SIZE * j + p)
        (CHUNK_SIZE - p) (st.outCapacity - st.outbytes) (by omega)
      have hstep : compressMoreZlib maxInput st = (Status.DONE,
          { st with
            zNextIn := CHUNK_SIZE * j + p + (CHUNK_SIZE - p),
            zAvailIn := 0,
            zPending := [],
            zFinishQueued := true,
            outbytes := st.outbytes + (CHUNK_SIZE - p + 1),
            payload := st.payload ++
              ((B.drop (CHUNK_SIZE * j + p)).take (CHUNK_SIZE - p) ++ zEndMark),
            currentChunkSize := 0,
            chunkOffsets := st.chunkOffsets ++
              [(st.outbytes + (CHUNK_SIZE - p + 1)) % U32MOD] }) := by
        unfold compressMoreZlib
        dsimp only
        rw [hinp, hnext, hpend, hfq, hacl2, hmode, hccs, hr]
        simp [hdoneb, htk, zEndMark]
      have hpay : st.payload ++
          ((B.drop (CHUNK_SIZE * j + p)).take (CHUNK_SIZE - p) ++ zEndMark) =
          framesUpTo B 0 (j + 1) := by
        rw [framesUpTo_succ]
        have hf0 : frameOf B 0 j = zFrame B j := by
          simp [frameOf]
        rw [hf0, hframe, hslice, hpayload]
        simp [List.append_assoc]
      have hflen : (framesUpTo B 0 (j + 1)).length =
          (framesUpTo B 0 j).length + (CHUNK_SIZE - p) + p + 1 := by
        rw [← hpay, hpayload]
        simp [List.length_append, htk, hlen1, zEndMark]
        omega
      have hv : st.outbytes + (CHUNK_SIZE - p + 1) =
          headerSize + (framesUpTo B 0 (j + 1)).length := by
        rw [houtb, hflen, hpayload]
        simp [List.length_append, hlen1]
        omega
      refine Or.inr ⟨_, hstep, ?_, ?_, ?_⟩
      · dsimp only
        rw [hpay, hjN1, ← zlibPayload_eq_framesUpTo]
      · dsimp only
        rw [zlibPayload_eq_framesUpTo, ← hjN1, ← hv]
      · dsimp only
        rw [← hjN1, offsetsUpTo_succ, hoffs, hv]
    · -- full-flush step completing chunk j, more input remains
      have hdoneb : zlibIsDoneStep maxInput st = false := by
        unfold zlibIsDoneStep
        rw [hacl2, hinplen, hnext]
        simp [hdone]
      have hflushb : zlibIsFlushStep maxInput st = true := by
        unfold zlibIsFlushStep
        rw [ha0, hccs]
        simp
        omega
      have hmode : zlibModeOf maxInput st = ZMode.FULL_FLUSH := by
        unfold zlibModeOf
        rw [hdoneb, hflushb]
        rfl
      have hmul : CHUNK_SIZE * (j + 1) = CHUNK_SIZE * j + CHUNK_SIZE := by ring
      have hCj1 : CHUNK_SIZE * (j + 1) < B.length := by omega
      have hjn2 : ¬ (j + 1 = numChunks B.length) := by
        have := (lt_numChunks_iff B.length (j + 1) (by omega)).mpr hCj1
        omega
      have hframe : zFrame B j = chunkSliceOf B j ++ zFlushMark := by
        unfold zFrame
        rw [if_neg hjn2]
      have hslice : chunkSliceOf B j =
          (B.drop (CHUNK_SIZE * j)).take p ++
            (B.drop (CHUNK_SIZE * j + p)).take (CHUNK_SIZE - p) := by
        have h1 := List.take_add (B.drop (CHUNK_SIZE * j)) p (CHUNK_SIZE - p)
        rw [List.drop_drop] at h1
        rw [show p + (CHUNK_SIZE - p) = CHUNK_SIZE from by omega] at h1
        exact h1
      have htk : ((B.drop (CHUNK_SIZE * j + p)).take (CHUNK_SIZE - p)).length =
          CHUNK_SIZE - p := by
        simp [List.length_take, List.length_drop]
        omega
      have hr := deflateModel_ample B ZMode.FULL_FLUSH (CHUNK_SIZE * j + p)
        (CHUNK_SIZE - p) (st.outCapacity - st.outbytes) (by omega)
      have hstep : compressMoreZlib maxInput st = (Status.CONTINUE,
          { st with
            zNextIn := CHUNK_SIZE * j + p + (CHUNK_SIZE - p),
            zAvailIn := 0,
            zPending := [],
            zFinishQueued := false,
            outbytes := st.outbytes + (CHUNK_SIZE - p + 4),
            payload := st.payload ++
              ((B.drop (CHUNK_SIZE * j + p)).take (CHUNK_SIZE - p) ++ zFlushMark),
            currentChunkSize := 0,
            chunkOffsets := st.chunkOffsets ++
              [(st.outbytes + (CHUNK_SIZE - p + 4)) % U32MOD] }) := by
        unfold compressMoreZlib
        dsimp only
        rw [hinp, hnext, hpend, hfq, hacl2, hmode, hccs, hr]
        have hne : st.outCapacity - (st.outbytes + (CHUNK_SIZE - p + 4)) ≠ 0 := by
          omega
        have hfull : p + (CHUNK_SIZE - p) = CHUNK_SIZE := by omega
        simp [hdoneb, htk, hne, hfull, zFlushMark]
      have hpay : st.payload ++
          ((B.drop (CHUNK_SIZE * j + p)).take (CHUNK_SIZE - p) ++ zFlushMark) =
          framesUpTo B 0 (j + 1) := by
        rw [framesUpTo_succ]
        have hf0 : frameOf B 0 j = zFrame B j := by
          simp [frameOf]
        rw [hf0, hframe, hslice, hpayload]
        simp [List.append_assoc]
      have hlen1 : ((B.drop (CHUNK_SIZE * j)).take p).length = p := by
        simp [List.length_take, List.length_drop]
        omega
      have hflen : (framesUpTo B 0 (j + 1)).length =
          (framesUpTo B 0 j).length + (CHUNK_SIZE - p) + p + 4 := by
        rw [← hpay, hpayload]
        simp [List.length_append, htk, hlen1, zFlushMark]
        omega
      refine Or.inl ⟨j + 1, 0, _, hstep,
        ⟨halg, hlevel, hinp, hinplen, hcap, by dsimp only; omega, rfl, rfl, rfl,
          rfl, ?_, ?_, ?_, by omega, by omega⟩, by omega⟩
      · dsimp only
        rw [hpay]
        simp
      · dsimp only
        rw [hpay, houtb, hflen, hpayload]
        simp [List.length_append, hlen1]
        omega
      · dsimp only
        have hv : st.outbytes + (CHUNK_SIZE - p + 4) =
            headerSize + (framesUpTo B 0 (j + 1)).length := by
          rw [houtb, hflen, hpayload]
          simp [List.length_append, hlen1]
          omega
        rw [hoffs, offsetsUpTo_succ, hv]
  · -- not clamped
    have hacl2 : zlibClampedAvailIn maxInput st = A0 := by
      rw [hacl, if_neg hdc]
    by_cases hdone : A0 = B.length - (CHUNK_SIZE * j + p)
    · -- finish step: the final partial chunk is consumed whole
      have hdoneb : zlibIsDoneStep maxInput st = true := by
        unfold zlibIsDoneStep
        rw [hacl2, hinplen, hnext]
        simp [hdone]
      have hmode : zlibModeOf maxInput st = ZMode.FINISH := by
        unfold zlibModeOf
        rw [hdoneb]
        rfl
      have hple : p + (A0) ≤ CHUNK_SIZE := by omega
      have hmul : CHUNK_SIZE * (j + 1) = CHUNK_SIZE * j + CHUNK_SIZE := by ring
      have hjN1 : j + 1 = numChunks B.length := by
        have h3 : ¬ (j + 1 < numChunks B.length) := by
          intro hc
          have := (lt_numChunks_iff B.length (j + 1) (by omega)).mp hc
          omega
        omega
      have hframe : zFrame B j = chunkSliceOf B j ++ zEndMark := by
        unfold zFrame
        rw [if_pos hjN1]
      have hdl : (B.drop (CHUNK_SIZE * j)).length = p + (A0) := by
        simp
        omega
      have hslice : chunkSliceOf B j =
          (B.drop (CHUNK_SIZE * j)).take p ++
            (B.drop (CHUNK_SIZE * j + p)).take (A0) := by
        have h1 := List.take_add (B.drop (CHUNK_SIZE * j)) p (A0)
        rw [List.drop_drop] at h1
        rw [List.take_of_length_le (by omega)] at h1
        unfold chunkSliceOf
        rw [List.take_of_length_le (by omega)]
        exact h1
      have htk : ((B.drop (CHUNK_SIZE * j + p)).take (A0)).length =
          (A0) := by
        simp [List.length_take, List.length_drop]
        omega
      have hlen1 : ((B.drop (CHUNK_SIZE * j)).take p).length = p := by
        simp [List.length_take, List.length_drop]
        omega
      have hr := deflateModel_ample B ZMode.FINISH (CHUNK_SIZE * j + p)
        (A0) (st.outCapacity - st.outbytes) (by omega)
      have hstep : compressMoreZlib maxInput st = (Status.DONE,
          { st with
            zNextIn := CHUNK_SIZE * j + p + (A0),
            zAvailIn := 0,
            zPending := [],
            zFinishQueued := true,
            outbytes := st.outbytes + (A0 + 1),
            payload := st.payload ++
              ((B.drop (CHUNK_SIZE * j + p)).take (A0) ++ zEndMark),
            currentChunkSize := 0,
            chunkOffsets := st.chunkOffsets ++
              [(st.outbytes + (A0 + 1)) % U32MOD] }) := by
        unfold compressMoreZlib
        dsimp only
        rw [hinp, hnext, hpend, hfq, hacl2, hmode, hccs, hr]
        simp [hdoneb, htk, zEndMark]
      have hpay : st.payload ++
          ((B.drop (CHUNK_SIZE * j + p)).take (A0) ++ zEndMark) =
          framesUpTo B 0 (j + 1) := by
        rw [framesUpTo_succ]
        have hf0 : frameOf B 0 j = zFrame B j := by
          simp [frameOf]
        rw [hf0, hframe, hslice, hpayload]
        simp [List.append_assoc]
      have hflen : (framesUpTo B 0 (j + 1)).length =
          (framesUpTo B 0 j).length + (A0) + p + 1 := by
        rw [← hpay, hpayload]
        simp [List.length_append, htk, hlen1, zEndMark]
        omega
      have hv : st.outbytes + (A0 + 1) =
          headerSize + (framesUpTo B 0 (j + 1)).length := by
        rw [houtb, hflen, hpayload]
        simp [List.length_append, hlen1]
        omega
      refine Or.inr ⟨_, hstep, ?_, ?_, ?_⟩
      · dsimp only
        rw [hpay, hjN1, ← zlibPayload_eq_framesUpTo]
      · dsimp only
        rw [zlibPayload_eq_framesUpTo, ← hjN1, ← hv]
      · dsimp only
        rw [← hjN1, offsetsUpTo_succ, hoffs, hv]
    · -- plain NO_FLUSH step
      have hdoneb : zlibIsDoneStep maxInput st = false := by
        unfold zlibIsDoneStep
        rw [hacl2, hinplen, hnext]
        simp [hdone]
      have hflushb : zlibIsFlushStep maxInput st = false := by
        unfold zlibIsFlushStep
        rw [ha0, hccs]
        simp
        omega
      have hmode : zlibModeOf maxInput st = ZMode.NO_FLUSH := by
        unfold zlibModeOf
        rw [hdoneb, hflushb]
        rfl
      have htk : ((B.drop (CHUNK_SIZE * j + p)).take A0).length = A0 := by
        simp [List.length_take, List.length_drop]
        omega
      have hr := deflateModel_ample B ZMode.NO_FLUSH (CHUNK_SIZE * j + p) A0
        (st.outCapacity - st.outbytes) (by omega)
      have hstep : compressMoreZlib maxInput st = (Status.CONTINUE,
          { st with
            zNextIn := CHUNK_SIZE * j + p + A0,
            zAvailIn := 0,
            zPending := [],
            zFinishQueued := false,
            outbytes := st.outbytes + A0,
            payload := framesUpTo B 0 j ++
              (B.drop (CHUNK_SIZE * j)).take (p + A0),
            currentChunkSize := p + A0 }) := by
        unfold compressMoreZlib
        dsimp only
        rw [hinp, hnext, hpend, hfq, hacl2, hmode, hccs, hr]
        have hne : st.outCapacity - (st.outbytes + A0) ≠ 0 := by omega
        have hpc2 : ¬ (p + A0 = CHUNK_SIZE) := by omega
        have htadd : (B.drop (CHUNK_SIZE * j)).take (p + A0) =
            (B.drop (CHUNK_SIZE * j)).take p ++
              (B.drop (CHUNK_SIZE * j + p)).take A0 := by
          rw [List.take_add, List.drop_drop]
        simp [hdoneb, htk, hne, hpc2, hpayload, htadd]
      refine Or.inl ⟨j, p + A0, _, hstep,
        ⟨halg, hlevel, hinp, hinplen, hcap, by dsimp only; omega, rfl, rfl, rfl,
          rfl, rfl, ?_, hoffs, by omega, by omega⟩, by omega⟩
      dsimp only
      rw [houtb, hpayload]
      simp [List.length_append, List.length_take, List.length_drop]
      omega

end Compression


namespace Compression

theorem zlib_run (B : List Nat) (level maxInput : Nat) (fuel : Nat) (j p : Nat)
    (st : Compressor) (hmi : 1 ≤ maxInput)
    (hI : ZlibMid B level j p st)
    (hfuel : B.length - (CHUNK_SIZE * j + p) ≤ fuel) :
    ∃ stF, runCompress maxInput fuel st = some stF ∧
      stF.payload = zlibPayload B ∧
      stF.outbytes = headerSize + (zlibPayload B).length ∧
      stF.chunkOffsets = offsetsUpTo B 0 (numChunks B.length) := by
  induction fuel generalizing j p st with
  | zero =>
    exfalso
    obtain ⟨-, -, -, -, -, -, -, -, -, -, -, -, -, hlt, -⟩ := hI
    omega
  | succ n ih =>
    have halg : st.alg = 0 := hI.1
    rcases zlib_step B level maxInput j p st hmi hI with
      ⟨j2, p2, st2, hs, hI2, hadv⟩ | ⟨st2, hs, h1, h2, h3⟩
    · have hcm : compressMore maxInput st = (Status.CONTINUE, st2) := by
        unfold compressMore
        rw [if_pos halg]
        exact hs
      rw [runCompress, hcm]
      exact ih j2 p2 st2 hI2 (by omega)
    · have hcm : compressMore maxInput st = (Status.DONE, st2) := by
        unfold compressMore
        rw [if_pos halg]
        exact hs
      rw [runCompress, hcm]
      exact ⟨st2, rfl, h1, h2, h3⟩

theorem zlibPipeline_characterization (B : List Nat) (level maxInput : Nat)
    (hB : 1 ≤ B.length) (hBmax : B.length < UINT32_MAX) (hmi : 1 ≤ maxInput) :
    ∃ stF, pipelineState B 0 level maxInput = some stF ∧
      stF.payload = zlibPayload B ∧
      stF.outbytes = headerSize + (zlibPayload B).length ∧
      stF.chunkOffsets = offsetsUpTo B 0 (numChunks B.length) ∧
      stF.alg = 0 ∧ stF.level = level := by
  have hinit : (Compressor.new B 0 level).init = some
      { Compressor.new B 0 level with initialized := true } := by
    unfold Compressor.init initOK Compressor.new
    rw [if_pos]
    rw [if_neg (by simp; omega)]
    simp
  have hI0 : ZlibMid B level 0 0
      (Compressor.setOutput { Compressor.new B 0 level with initialized := true }
        (bigCapacity B)) := by
    unfold ZlibMid Compressor.new Compressor.setOutput framesUpTo offsetsUpTo
    simp
    all_goals try simp only [CHUNK_SIZE]
    all_goals omega
  obtain ⟨stF, hrun, h1, h2, h3⟩ :=
    zlib_run B level maxInput (B.length + 1) 0 0 _ hmi hI0 (by omega)
  have hpres := runCompress_preserves maxInput (B.length + 1) _ _ hrun
  refine ⟨stF, ?_, h1, h2, h3, ?_, ?_⟩
  · unfold pipelineState
    rw [hinit]
    exact hrun
  · rw [hpres.1]
    rfl
  · rw [hpres.2.1]
    rfl

end Compression

namespace Compression

theorem zstdFrameEnc_length (bs : List Nat) :
    (zstdFrameEnc bs).length = 5 + bs.length := by
  simp [zstdFrameEnc, lenLE4]
  omega

theorem ZSTD_compressStream_nopending (B : List Nat) (srcPos srcSize : Nat)
    (buffered : List Nat) (outSpace : Nat) :
    ZSTD_compressStream B srcPos srcSize buffered [] outSpace =
      { ret := 0, emitted := [], bufferedAfter := buffered ++ (B.drop srcPos).take srcSize,
        pendingAfter := [], consumed := srcSize } := by
  simp [ZSTD_compressStream]

theorem ZSTD_flushStream_ample (buffered : List Nat) (outSpace : Nat)
    (hne : buffered ≠ []) (h : (zstdFrameEnc buffered).length ≤ outSpace) :
    ZSTD_flushStream buffered [] outSpace =
      { ret := 0, emitted := zstdFrameEnc buffered, bufferedAfter := [],
        pendingAfter := [], consumed := 0 } := by
  unfold ZSTD_flushStream
  rw [if_neg hne]
  have hmin : min ([] ++ zstdFrameEnc buffered).length outSpace =
      (zstdFrameEnc buffered).length := by
    simp
    omega
  simp [hmin, List.take_of_length_le, List.drop_eq_nil_of_le]
  omega

end Compression

namespace Compression

set_option maxHeartbeats 1000000

theorem zstd_step (B : List Nat) (level maxInput : Nat) (j p : Nat)
    (st : Compressor) (hmi : 1 ≤ maxInput)
    (hI : ZstdMid B level j p st) :
    (∃ j2 p2 st2, compressMoreZstd maxInput st = (Status.CONTINUE, st2) ∧
       ZstdMid B level j2 p2 st2 ∧
       CHUNK_SIZE * j + p < CHUNK_SIZE * j2 + p2) ∨
    (∃ st2, compressMoreZstd maxInput st = (Status.DONE, st2) ∧
       st2.payload = zstdPayload B ∧
       st2.outbytes = headerSize + (zstdPayload B).length ∧
       st2.chunkOffsets = offsetsUpTo B 1 (numChunks B.length)) := by
  obtain ⟨halg, hlevel, hinp, hinplen, hsize, hpos, hbuf, hpendz, hccs,
    hpayload, hopos, houtb, hoffs, hlt, hpc⟩ := hI
  have hCpos : 0 < CHUNK_SIZE := by
    unfold CHUNK_SIZE
    omega
  have hplen : st.payload.length ≤ (CHUNK_SIZE + 8) * j := by
    rw [hpayload]
    exact framesUpTo_length_le B 1 j
  have hjN : j < numChunks B.length := by
    rw [lt_numChunks_iff B.length j (by omega)]
    omega
  have houtspace : CHUNK_SIZE + 6 ≤ st.zstdOutSize - st.zstdOutPos := by
    have h2 : j + 1 ≤ numChunks B.length := hjN
    rw [hsize, hopos]
    simp only [bigCapacity, CHUNK_SIZE, headerSize] at hplen hpc h2 ⊢
    omega
  have hi0 : zstdInputSizeOf maxInput st =
      min (B.length - (CHUNK_SIZE * j + p)) maxInput := by
    unfold zstdInputSizeOf
    rw [hinplen, hpos]
    dsimp only
    split
    · omega
    · omega
  set A0 := min (B.length - (CHUNK_SIZE * j + p)) maxInput with hA0def
  have hA0left : A0 ≤ B.length - (CHUNK_SIZE * j + p) := by
    rw [hA0def]
    omega
  have hA0pos : 1 ≤ A0 := by
    rw [hA0def]
    omega
  have hacl : zstdClampedInputSize maxInput st =
      if CHUNK_SIZE ≤ p + A0 then CHUNK_SIZE - p else A0 := by
    unfold zstdClampedInputSize
    rw [hi0, hccs]
  have hlen1 : ((B.drop (CHUNK_SIZE * j)).take p).length = p := by
    simp [List.length_take, List.length_drop]
    omega
  by_cases hdc : CHUNK_SIZE ≤ p + A0
  · -- clamped to the chunk boundary
    have hacl2 : zstdClampedInputSize maxInput st = CHUNK_SIZE - p := by
      rw [hacl, if_pos hdc]
    have hCple : CHUNK_SIZE - p ≤ B.length - (CHUNK_SIZE * j + p) := by omega
    have hflushb : zstdIsFlushStep maxInput st = true := by
      unfold zstdIsFlushStep
      rw [hi0, hccs]
      simp
      omega
    have htk : ((B.drop (CHUNK_SIZE * j + p)).take (CHUNK_SIZE - p)).length =
        CHUNK_SIZE - p := by
      simp [List.length_take, List.length_drop]
      omega
    have hmerge := List.take_add (B.drop (CHUNK_SIZE * j)) p (CHUNK_SIZE - p)
    rw [List.drop_drop] at hmerge
    have hbne : (B.drop (CHUNK_SIZE * j)).take p ++
        (B.drop (CHUNK_SIZE * j + p)).take (CHUNK_SIZE - p) ≠ [] := by
      intro hc
      have := congrArg List.length hc
      simp [hlen1, htk] at this
      omega
    have hfr : (zstdFrameEnc ((B.drop (CHUNK_SIZE * j)).take p ++
        (B.drop (CHUNK_SIZE * j + p)).take (CHUNK_SIZE - p))).length =
        5 + CHUNK_SIZE := by
      rw [zstdFrameEnc_length]
      simp [hlen1, htk]
      omega
    have hflush := ZSTD_flushStream_ample ((B.drop (CHUNK_SIZE * j)).take p ++
        (B.drop (CHUNK_SIZE * j + p)).take (CHUNK_SIZE - p))
      (st.zstdOutSize - st.zstdOutPos) hbne (by omega)
    by_cases hdone : CHUNK_SIZE - p = B.length - (CHUNK_SIZE * j + p)
    · -- finish step: the final chunk ends exactly at the chunk boundary
      have hdoneb : zstdIsDoneStep maxInput st = true := by
        unfold zstdIsDoneStep
        rw [hacl2, hinplen, hpos]
        simp [hdone]
      have hple : p + (CHUNK_SIZE - p) ≤ CHUNK_SIZE := by omega
      have hmul : CHUNK_SIZE * (j + 1) = CHUNK_SIZE * j + CHUNK_SIZE := by ring
      have hjN1 : j + 1 = numChunks B.length := by
        have h3 : ¬ (j + 1 < numChunks B.length) := by
          intro hc
          have := (lt_numChunks_iff B.length (j + 1) (by omega)).mp hc
          omega
        omega
      have htk2 : ((B.drop (CHUNK_SIZE * j + p)).take (CHUNK_SIZE - p)).length =
          (CHUNK_SIZE - p) := by
        simp [List.length_take, List.length_drop]
        omega
      have hmerge2 := List.take_add (B.drop (CHUNK_SIZE * j)) p (CHUNK_SIZE - p)
      rw [List.drop_drop] at hmerge2
      have hbne2 : (B.drop (CHUNK_SIZE * j)).take p ++
          (B.drop (CHUNK_SIZE * j + p)).take (CHUNK_SIZE - p) ≠ [] := by
        intro hc
        have := congrArg List.length hc
        simp [hlen1, htk2] at this
        omega
      have hslice : chunkSliceOf B j =
          (B.drop (CHUNK_SIZE * j)).take p ++
            (B.drop (CHUNK_SIZE * j + p)).take (CHUNK_SIZE - p) := by
        rw [List.take_of_length_le (by simp; omega)] at hmerge2
        unfold chunkSliceOf
        rw [List.take_of_length_le (by simp; omega)]
        exact hmerge2
      have hencslice : zstdFrameEnc ((B.drop (CHUNK_SIZE * j)).take p ++
          (B.drop (CHUNK_SIZE * j + p)).take (CHUNK_SIZE - p)) =
          zstdFrameOf B j := by
        rw [← hslice]
        rfl
      have hfrlen : (zstdFrameOf B j).length = 5 + (p + (CHUNK_SIZE - p)) := by
        rw [← hencslice, zstdFrameEnc_length, List.length_append, hlen1, htk2]
      have hflush2 := ZSTD_flushStream_ample ((B.drop (CHUNK_SIZE * j)).take p ++
          (B.drop (CHUNK_SIZE * j + p)).take (CHUNK_SIZE - p))
        (st.zstdOutSize - st.zstdOutPos) hbne2
        (by rw [hencslice, hfrlen]; omega)
      have hstep : compressMoreZstd maxInput st = (Status.DONE,
          { st with
            outbytes := st.outbytes + (zstdFrameOf B j).length,
            payload := st.payload ++ zstdFrameOf B j,
            zstdOutPos := st.zstdOutPos + (zstdFrameOf B j).length,
            currentChunkSize := 0,
            zstdInputPos := CHUNK_SIZE * j + p + (CHUNK_SIZE - p),
            zstdBuffered := [],
            zstdPending := [],
            chunkOffsets := st.chunkOffsets ++
              [(st.outbytes + (zstdFrameOf B j).length) % U32MOD] }) := by
        unfold compressMoreZstd
        dsimp only
        rw [hinp, hpos, hbuf, hpendz, hacl2, hdoneb,
          ZSTD_compressStream_nopending]
        rw [hencslice] at hflush2
        have hAne : ¬ ((CHUNK_SIZE - p) = 0) := by omega
        simp [ZSTD_endStream, hAne, hflush2, hencslice, hccs]
      have hpay : st.payload ++ zstdFrameOf B j = framesUpTo B 1 (j + 1) := by
        rw [framesUpTo_succ]
        have hf1 : frameOf B 1 j = zstdFrameOf B j := by
          simp [frameOf]
        rw [hf1, hpayload]
      have hv : st.outbytes + (zstdFrameOf B j).length =
          headerSize + (framesUpTo B 1 (j + 1)).length := by
        rw [houtb, ← hpay]
        simp [List.length_append]
        omega
      refine Or.inr ⟨_, hstep, ?_, ?_, ?_⟩
      · dsimp only
        rw [hpay, hjN1, ← zstdPayload_eq_framesUpTo]
      · dsimp only
        rw [zstdPayload_eq_framesUpTo, ← hjN1, ← hv]
      · dsimp only
        rw [← hjN1, offsetsUpTo_succ, hoffs, hv]
    · -- flush step completing chunk j, more input remains
      have hdoneb : zstdIsDoneStep maxInput st = false := by
        unfold zstdIsDoneStep
        rw [hacl2, hinplen, hpos]
        simp [hdone]
      have hmul : CHUNK_SIZE * (j + 1) = CHUNK_SIZE * j + CHUNK_SIZE := by ring
      have hCj1 : CHUNK_SIZE * (j + 1) < B.length := by omega
      have hjn2 : ¬ (j + 1 = numChunks B.length) := by
        have := (lt_numChunks_iff B.length (j + 1) (by omega)).mpr hCj1
        omega
      have hslice : chunkSliceOf B j =
          (B.drop (CHUNK_SIZE * j)).take p ++
            (B.drop (CHUNK_SIZE * j + p)).take (CHUNK_SIZE - p) := by
        rw [show p + (CHUNK_SIZE - p) = CHUNK_SIZE from by omega] at hmerge
        exact hmerge
      have hencslice : zstdFrameEnc ((B.drop (CHUNK_SIZE * j)).take p ++
          (B.drop (CHUNK_SIZE * j + p)).take (CHUNK_SIZE - p)) =
          zstdFrameOf B j := by
        rw [← hslice]
        rfl
      have hfrlen : (zstdFrameOf B j).length = 5 + CHUNK_SIZE := by
        rw [← hencslice, hfr]
      have hnofull : ¬ (st.zstdOutPos + (zstdFrameOf B j).length = st.zstdOutSize) := by
        rw [hfrlen]
        omega
      have hstep : compressMoreZstd maxInput st = (Status.CONTINUE,
          { st with
            outbytes := st.outbytes + (zstdFrameOf B j).length,
            payload := st.payload ++ zstdFrameOf B j,
            zstdOutPos := st.zstdOutPos + (zstdFrameOf B j).length,
            currentChunkSize := 0,
            zstdInputPos := CHUNK_SIZE * j + p + (CHUNK_SIZE - p),
            zstdBuffered := [],
            zstdPending := [],
            chunkOffsets := st.chunkOffsets ++
              [(st.outbytes + (zstdFrameOf B j).length) % U32MOD] }) := by
        unfold compressMoreZstd
        dsimp only
        rw [hinp, hpos, hbuf, hpendz, hacl2, hdoneb, hflushb,
          ZSTD_compressStream_nopending]
        have hA0ne : ¬ (CHUNK_SIZE - p = 0) := by omega
        simp [hA0ne, hflush, hencslice, hnofull, hccs,
          show p + (CHUNK_SIZE - p) = CHUNK_SIZE from by omega]
      have hpay : st.payload ++ zstdFrameOf B j = framesUpTo B 1 (j + 1) := by
        rw [framesUpTo_succ]
        have hf1 : frameOf B 1 j = zstdFrameOf B j := by
          simp [frameOf]
        rw [hf1, hpayload]
      have hv : st.outbytes + (zstdFrameOf B j).length =
          headerSize + (framesUpTo B 1 (j + 1)).length := by
        rw [houtb, ← hpay]
        simp [List.length_append]
        omega
      refine Or.inl ⟨j + 1, 0, _, hstep,
        ⟨halg, hlevel, hinp, hinplen, hsize, by dsimp only; omega, by simp, rfl,
          rfl, ?_, ?_, ?_, ?_, by omega, by omega⟩, by omega⟩
      · rw [hpay]
      · rw [hopos]
        simp
      · rw [hv, hpay]
      · rw [hoffs, offsetsUpTo_succ, hv]
  · -- not clamped
    have hacl2 : zstdClampedInputSize maxInput st = A0 := by
      rw [hacl, if_neg hdc]
    by_cases hdone : A0 = B.length - (CHUNK_SIZE * j + p)
    · -- finish step: the final partial chunk is consumed whole
      have hdoneb : zstdIsDoneStep maxInput st = true := by
        unfold zstdIsDoneStep
        rw [hacl2, hinplen, hpos]
        simp [hdone]
      have hple : p + (A0) ≤ CHUNK_SIZE := by omega
      have hmul : CHUNK_SIZE * (j + 1) = CHUNK_SIZE * j + CHUNK_SIZE := by ring
      have hjN1 : j + 1 = numChunks B.length := by
        have h3 : ¬ (j + 1 < numChunks B.length) := by
          intro hc
          have := (lt_numChunks_iff B.length (j + 1) (by omega)).mp hc
          omega
        omega
      have htk2 : ((B.drop (CHUNK_SIZE * j + p)).take (A0)).length =
          (A0) := by
        simp [List.length_take, List.length_drop]
        omega
      have hmerge2 := List.take_add (B.drop (CHUNK_SIZE * j)) p (A0)
      rw [List.drop_drop] at hmerge2
      have hbne2 : (B.drop (CHUNK_SIZE * j)).take p ++
          (B.drop (CHUNK_SIZE * j + p)).take (A0) ≠ [] := by
        intro hc
        have := congrArg List.length hc
        simp [hlen1, htk2] at this
        omega
      have hslice : chunkSliceOf B j =
          (B.drop (CHUNK_SIZE * j)).take p ++
            (B.drop (CHUNK_SIZE * j + p)).take (A0) := by
        rw [List.take_of_length_le (by simp; omega)] at hmerge2
        unfold chunkSliceOf
        rw [List.take_of_length_le (by simp; omega)]
        exact hmerge2
      have hencslice : zstdFrameEnc ((B.drop (CHUNK_SIZE * j)).take p ++
          (B.drop (CHUNK_SIZE * j + p)).take (A0)) =
          zstdFrameOf B j := by
        rw [← hslice]
        rfl
      have hfrlen : (zstdFrameOf B j).length = 5 + (p + (A0)) := by
        rw [← hencslice, zstdFrameEnc_length, List.length_append, hlen1, htk2]
      have hflush2 := ZSTD_flushStream_ample ((B.drop (CHUNK_SIZE * j)).take p ++
          (B.drop (CHUNK_SIZE * j + p)).take (A0))
        (st.zstdOutSize - st.zstdOutPos) hbne2
        (by rw [hencslice, hfrlen]; omega)
      have hstep : compressMoreZstd maxInput st = (Status.DONE,
          { st with
            outbytes := st.outbytes + (zstdFrameOf B j).length,
            payload := st.payload ++ zstdFrameOf B j,
            zstdOutPos := st.zstdOutPos + (zstdFrameOf B j).length,
            currentChunkSize := 0,
            zstdInputPos := CHUNK_SIZE * j + p + (A0),
            zstdBuffered := [],
            zstdPending := [],
            chunkOffsets := st.chunkOffsets ++
              [(st.outbytes + (zstdFrameOf B j).length) % U32MOD] }) := by
        unfold compressMoreZstd
        dsimp only
        rw [hinp, hpos, hbuf, hpendz, hacl2, hdoneb,
          ZSTD_compressStream_nopending]
        rw [hencslice] at hflush2
        have hAne : ¬ ((A0) = 0) := by omega
        simp [ZSTD_endStream, hAne, hflush2, hencslice, hccs]
      have hpay : st.payload ++ zstdFrameOf B j = framesUpTo B 1 (j + 1) := by
        rw [framesUpTo_succ]
        have hf1 : frameOf B 1 j = zstdFrameOf B j := by
          simp [frameOf]
        rw [hf1, hpayload]
      have hv : st.outbytes + (zstdFrameOf B j).length =
          headerSize + (framesUpTo B 1 (j + 1)).length := by
        rw [houtb, ← hpay]
        simp [List.length_append]
        omega
      refine Or.inr ⟨_, hstep, ?_, ?_, ?_⟩
      · dsimp only
        rw [hpay, hjN1, ← zstdPayload_eq_framesUpTo]
      · dsimp only
        rw [zstdPayload_eq_framesUpTo, ← hjN1, ← hv]
      · dsimp only
        rw [← hjN1, offsetsUpTo_succ, hoffs, hv]
    · -- plain feed step
      have hdoneb : zstdIsDoneStep maxInput st = false := by
        unfold zstdIsDoneStep
        rw [hacl2, hinplen, hpos]
        simp [hdone]
      have hflushb : zstdIsFlushStep maxInput st = false := by
        unfold zstdIsFlushStep
        rw [hi0, hccs]
        simp
        omega
      have hmerge := List.take_add (B.drop (CHUNK_SIZE * j)) p A0
      rw [List.drop_drop] at hmerge
      have hnotfull : ¬ (st.zstdOutPos = st.zstdOutSize) := by omega
      have hnotC : ¬ (p + A0 = CHUNK_SIZE) := by omega
      have hstep : compressMoreZstd maxInput st = (Status.CONTINUE,
          { st with
            currentChunkSize := p + A0,
            zstdInputPos := CHUNK_SIZE * j + p + A0,
            zstdBuffered := (B.drop (CHUNK_SIZE * j)).take (p + A0),
            zstdPending := [] }) := by
        unfold compressMoreZstd
        dsimp only
        rw [hinp, hpos, hbuf, hpendz, hacl2, hdoneb, hflushb,
          ZSTD_compressStream_nopending]
        simp [hnotfull, hnotC, hccs, hmerge]
      refine Or.inl ⟨j, p + A0, _, hstep,
        ⟨halg, hlevel, hinp, hinplen, hsize, by dsimp only; omega, rfl, rfl, rfl,
          hpayload, by dsimp only; rw [hopos], by dsimp only; rw [houtb], hoffs,
          by omega, by omega⟩, by omega⟩

end Compression

namespace Compression

theorem zstd_run (B : List Nat) (level maxInput : Nat) (fuel : Nat) (j p : Nat)
    (st : Compressor) (hmi : 1 ≤ maxInput)
    (hI : ZstdMid B level j p st)
    (hfuel : B.length - (CHUNK_SIZE * j + p) ≤ fuel) :
    ∃ stF, runCompress maxInput fuel st = some stF ∧
      stF.payload = zstdPayload B ∧
      stF.outbytes = headerSize + (zstdPayload B).length ∧
      stF.chunkOffsets = offsetsUpTo B 1 (numChunks B.length) := by
  induction fuel generalizing j p st with
  | zero =>
    exfalso
    obtain ⟨-, -, -, -, -, -, -, -, -, -, -, -, -, hlt, -⟩ := hI
    omega
  | succ n ih =>
    have halg : st.alg = 1 := hI.1
    have halg0 : ¬ (st.alg = 0) := by omega
    rcases zstd_step B level maxInput j p st hmi hI with
      ⟨j2, p2, st2, hs, hI2, hadv⟩ | ⟨st2, hs, h1, h2, h3⟩
    · have hcm : compressMore maxInput st = (Status.CONTINUE, st2) := by
        unfold compressMore
        rw [if_neg halg0, if_pos halg]
        exact hs
      rw [runCompress, hcm]
      exact ih j2 p2 st2 hI2 (by omega)
    · have hcm : compressMore maxInput st = (Status.DONE, st2) := by
        unfold compressMore
        rw [if_neg halg0, if_pos halg]
        exact hs
      rw [runCompress, hcm]
      exact ⟨st2, rfl, h1, h2, h3⟩

theorem zstdPipeline_characterization (B : List Nat) (level maxInput : Nat)
    (hB : 1 ≤ B.length) (hBmax : B.length < UINT32_MAX) (hmi : 1 ≤ maxInput) :
    ∃ stF, pipelineState B 1 level maxInput = some stF ∧
      stF.payload = zstdPayload B ∧
      stF.outbytes = headerSize + (zstdPayload B).length ∧
      stF.chunkOffsets = offsetsUpTo B 1 (numChunks B.length) ∧
      stF.alg = 1 ∧ stF.level = level := by
  have hinit : (Compressor.new B 1 level).init = some
      { Compressor.new B 1 level with initialized := true } := by
    unfold Compressor.init initOK Compressor.new
    rw [if_pos]
    rw [if_neg (by simp; omega)]
    simp
  have hI0 : ZstdMid B level 0 0
      (Compressor.setOutput { Compressor.new B 1 level with initialized := true }
        (bigCapacity B)) := by
    unfold ZstdMid Compressor.new Compressor.setOutput framesUpTo offsetsUpTo
    simp
    all_goals try simp only [CHUNK_SIZE]
    all_goals omega
  obtain ⟨stF, hrun, h1, h2, h3⟩ :=
    zstd_run B level maxInput (B.length + 1) 0 0 _ hmi hI0 (by omega)
  have hpres := runCompress_preserves maxInput (B.length + 1) _ _ hrun
  refine ⟨stF, ?_, h1, h2, h3, ?_, ?_⟩
  · unfold pipelineState
    rw [hinit]
    exact hrun
  · rw [hpres.1]
    rfl
  · rw [hpres.2.1]
    rfl

end Compression

namespace Compression

theorem align4_ge (n : Nat) : n ≤ align4 n := by
  unfold align4
  omega

theorem readLE4_append_left (a b : List Nat) (i : Nat) (h : i + 3 < a.length) :
    readLE4 (a ++ b) i = readLE4 a i := by
  unfold readLE4
  rw [byteAt_append_left a b i (by omega), byteAt_append_left a b (i + 1) (by omega),
    byteAt_append_left a b (i + 2) (by omega), byteAt_append_left a b (i + 3) (by omega)]

theorem framesUpTo_decomp (B : List Nat) (alg : Nat) (a b : Nat) (h : a ≤ b) :
    ∃ rest, framesUpTo B alg b = framesUpTo B alg a ++ rest := by
  induction b with
  | zero =>
    have : a = 0 := by omega
    subst this
    exact ⟨[], by simp⟩
  | succ n ih =>
    by_cases hab : a = n + 1
    · subst hab
      exact ⟨[], by simp⟩
    · obtain ⟨rest, hr⟩ := ih (by omega)
      exact ⟨rest ++ frameOf B alg n, by rw [framesUpTo_succ, hr, List.append_assoc]⟩

theorem framesUpTo_len_mono (B : List Nat) (alg : Nat) (a b : Nat) (h : a ≤ b) :
    (framesUpTo B alg a).length ≤ (framesUpTo B alg b).length := by
  obtain ⟨rest, hr⟩ := framesUpTo_decomp B alg a b h
  rw [hr]
  simp

theorem frameOf_length_pos (B : List Nat) (alg k : Nat) :
    0 < (frameOf B alg k).length := by
  unfold frameOf zFrame zstdFrameOf zstdFrameEnc
  split
  · split <;> simp [zEndMark, zFlushMark]
  · simp

theorem framesUpTo_len_strict (B : List Nat) (alg : Nat) (a b : Nat) (h : a < b) :
    (framesUpTo B alg a).length < (framesUpTo B alg b).length := by
  have h1 : (framesUpTo B alg (a + 1)).length ≤ (framesUpTo B alg b).length :=
    framesUpTo_len_mono B alg (a + 1) b h
  rw [framesUpTo_succ, List.length_append] at h1
  have := frameOf_length_pos B alg a
  omega

theorem offsetsUpTo_getD (B : List Nat) (alg j k : Nat) (h : k < j) :
    (offsetsUpTo B alg j).getD k 0 =
      (headerSize + (framesUpTo B alg (k + 1)).length) % U32MOD := by
  unfold offsetsUpTo
  rw [List.getD_eq_getElem?_getD, List.getElem?_map, List.getElem?_range h]
  rfl

theorem offsetsUpTo_length (B : List Nat) (alg j : Nat) :
    (offsetsUpTo B alg j).length = j := by
  simp [offsetsUpTo]

theorem finish_append_table (st : Compressor)
    (houtb : st.outbytes = headerSize + st.payload.length) :
    ∃ pre, st.finish = pre ++ st.chunkOffsets.flatMap lenLE4 ∧
      pre.length = align4 st.outbytes := by
  refine ⟨lenLE4 (st.outbytes % U32MOD) ++ [st.alg % 256, st.level % 256, 0, 0] ++
    st.payload ++ List.replicate (finishTableOffset st - st.outbytes) 0, ?_, ?_⟩
  · unfold Compressor.finish
    simp [List.append_assoc]
  · simp [List.length_append, lenLE4]
    have := align4_ge st.outbytes
    unfold finishTableOffset
    unfold headerSize at houtb
    omega

theorem finish_readLE4_table (st : Compressor) (k : Nat)
    (houtb : st.outbytes = headerSize + st.payload.length)
    (hk : k < st.chunkOffsets.length) :
    readLE4 st.finish (align4 st.outbytes + 4 * k) =
      st.chunkOffsets.getD k 0 % U32MOD := by
  obtain ⟨pre, hfin, hlen⟩ := finish_append_table st houtb
  rw [hfin, ← hlen, readLE4_append_right, readLE4_flatMap_lenLE4 _ _ hk]

theorem finish_drop_payload (st : Compressor) (pre rest : List Nat)
    (hp : st.payload = pre ++ rest) :
    st.finish.drop (headerSize + pre.length) =
      rest ++ (List.replicate (finishTableOffset st - st.outbytes) 0 ++
        st.chunkOffsets.flatMap lenLE4) := by
  have hfin : st.finish = (lenLE4 (st.outbytes % U32MOD) ++
      [st.alg % 256, st.level % 256, 0, 0] ++ pre) ++
      (rest ++ (List.replicate (finishTableOffset st - st.outbytes) 0 ++
        st.chunkOffsets.flatMap lenLE4)) := by
    unfold Compressor.finish
    rw [hp]
    simp [List.append_assoc]
  rw [hfin]
  have hl : (lenLE4 (st.outbytes % U32MOD) ++
      [st.alg % 256, st.level % 256, 0, 0] ++ pre).length =
      headerSize + pre.length := by
    simp [List.length_append, lenLE4, headerSize]
    omega
  rw [← hl, List.drop_left]

theorem finish_byteAt_payload (st : Compressor) (t : Nat)
    (ht : t < st.payload.length) :
    byteAt st.finish (headerSize + t) = byteAt st.payload t := by
  have h0 := finish_drop_payload st [] st.payload (by simp)
  simp at h0
  have h1 : byteAt st.finish (headerSize + t) =
      byteAt (st.finish.drop headerSize) t := by
    unfold byteAt
    rw [List.getD_eq_getElem?_getD, List.getD_eq_getElem?_getD,
      List.getElem?_drop]
  rw [h1, h0]
  unfold byteAt
  rw [List.getD_append _ _ _ _ ht]

theorem finish_readLE4_payload (st : Compressor) (t : Nat)
    (ht : t + 3 < st.payload.length) :
    readLE4 st.finish (headerSize + t) = readLE4 st.payload t := by
  unfold readLE4
  rw [show headerSize + t + 1 = headerSize + (t + 1) from by omega,
    show headerSize + t + 2 = headerSize + (t + 2) from by omega,
    show headerSize + t + 3 = headerSize + (t + 3) from by omega,
    finish_byteAt_payload st t (by omega), finish_byteAt_payload st (t + 1) (by omega),
    finish_byteAt_payload st (t + 2) (by omega), finish_byteAt_payload st (t + 3) (by omega)]

end Compression

namespace Compression

theorem readLE4_zstdFrameEnc_one (bs : List Nat) :
    readLE4 (zstdFrameEnc bs) 1 = bs.length % U32MOD := by
  have h : zstdFrameEnc bs = [ZSTD_MAGIC] ++ (lenLE4 bs.length ++ bs) := by
    rfl
  rw [h, show (1 : Nat) = ([ZSTD_MAGIC] : List Nat).length + 0 from rfl,
    readLE4_append_right, readLE4_lenLE4]

theorem ZSTD_decompress_frame (bs : List Nat) (cap : Nat)
    (hlen : bs.length < U32MOD) (hcap : bs.length ≤ cap) :
    ZSTD_decompress (zstdFrameEnc bs) cap = some bs := by
  have hl : (zstdFrameEnc bs).length = (4 + bs.length) + 1 := by
    rw [zstdFrameEnc_length]
    omega
  have hsplit : zstdFrameEnc bs = ([ZSTD_MAGIC] ++ lenLE4 bs.length) ++ bs := by
    simp [zstdFrameEnc]
  have hdrop5 : (zstdFrameEnc bs).drop 5 = bs := by
    rw [hsplit, show (5 : Nat) = ([ZSTD_MAGIC] ++ lenLE4 bs.length).length from by
      simp [lenLE4], List.drop_left]
  have hbyte0 : byteAt (zstdFrameEnc bs) 0 = ZSTD_MAGIC := by
    rfl
  have hread1 : readLE4 (zstdFrameEnc bs) 1 = bs.length := by
    rw [readLE4_zstdFrameEnc_one, Nat.mod_eq_of_lt hlen]
  have hparse : zstdParseFrames ((4 + bs.length) + 1) (zstdFrameEnc bs) = some bs := by
    have hne : zstdFrameEnc bs = ZSTD_MAGIC :: (lenLE4 bs.length ++ bs) := rfl
    rw [hne, zstdParseFrames]
    rw [← hne]
    rw [if_pos ⟨hbyte0, by omega⟩]
    rw [hread1, hdrop5]
    dsimp only
    rw [List.take_length, if_pos rfl]
    rw [show 5 + bs.length = (zstdFrameEnc bs).length from by rw [hl]; omega]
    rw [List.drop_length]
    have hnil : ∀ f, zstdParseFrames f ([] : List Nat) = some [] := by
      intro f
      cases f <;> rfl
    rw [hnil]
    simp
    simp
  unfold ZSTD_decompress
  rw [hl, hparse]
  dsimp only
  rw [if_pos hcap]

end Compression

namespace Compression

set_option maxHeartbeats 1000000

theorem chunk_roundtrip_core (B : List Nat) (alg : Nat) (stF : Compressor) (i : Nat)
    (halg2 : alg = 0 ∨ alg = 1)
    (hfit : headerSize + (framesUpTo B alg (numChunks B.length)).length < U32MOD)
    (halgF : stF.alg = alg)
    (hpayF : stF.payload = framesUpTo B alg (numChunks B.length))
    (houtbF : stF.outbytes = headerSize + stF.payload.length)
    (hoffsF : stF.chunkOffsets = offsetsUpTo B alg (numChunks B.length))
    (hi : i < numChunks B.length) :
    DecompressStringChunk stF.finish i (chunkSliceOf B i).length =
      some (chunkSliceOf B i) := by
  have houtlt : stF.outbytes < U32MOD := by
    rw [houtbF, hpayF]
    exact hfit
  have hfield : readLE4 stF.finish 0 = stF.outbytes := by
    rw [finish_readLE4_zero, Nat.mod_eq_of_lt houtlt]
  have hcto : chunkTableOffset stF.finish = align4 stF.outbytes := by
    unfold chunkTableOffset
    rw [hfield]
  have hoffread : ∀ k, k < numChunks B.length →
      readLE4 stF.finish (align4 stF.outbytes + 4 * k) =
        headerSize + (framesUpTo B alg (k + 1)).length := by
    intro k hk
    rw [finish_readLE4_table stF k houtbF
      (by rw [hoffsF, offsetsUpTo_length]; exact hk),
      hoffsF, offsetsUpTo_getD B alg _ k hk]
    have hle : (framesUpTo B alg (k + 1)).length ≤
        (framesUpTo B alg (numChunks B.length)).length :=
      framesUpTo_len_mono B alg (k + 1) _ hk
    simp only [U32MOD, headerSize] at hfit ⊢
    omega
  have hstartval : (if 0 < i then
      readLE4 stF.finish (chunkTableOffset stF.finish + 4 * (i - 1))
      else headerSize) = headerSize + (framesUpTo B alg i).length := by
    by_cases hi0 : 0 < i
    · rw [if_pos hi0, hcto]
      have h1 := hoffread (i - 1) (by omega)
      rw [show i - 1 + 1 = i from by omega] at h1
      exact h1
    · rw [if_neg hi0]
      have : i = 0 := by omega
      subst this
      simp [framesUpTo]
  have hendval : readLE4 stF.finish (chunkTableOffset stF.finish + 4 * i) =
      headerSize + (framesUpTo B alg (i + 1)).length := by
    rw [hcto]
    exact hoffread i hi
  obtain ⟨rest2, hdecomp⟩ := framesUpTo_decomp B alg (i + 1) (numChunks B.length) hi
  have hpay2 : stF.payload = framesUpTo B alg i ++ (frameOf B alg i ++ rest2) := by
    rw [hpayF, hdecomp, framesUpTo_succ, List.append_assoc]
  have hsucclen : (framesUpTo B alg (i + 1)).length =
      (framesUpTo B alg i).length + (frameOf B alg i).length := by
    rw [framesUpTo_succ]
    simp
  have hleN : (framesUpTo B alg (i + 1)).length ≤
      (framesUpTo B alg (numChunks B.length)).length :=
    framesUpTo_len_mono B alg (i + 1) _ hi
  have hsub : u32sub (headerSize + (framesUpTo B alg (i + 1)).length)
      (headerSize + (framesUpTo B alg i).length) = (frameOf B alg i).length := by
    unfold u32sub
    simp only [U32MOD, headerSize] at hfit hsucclen hleN ⊢
    omega
  have hseg : (stF.finish.drop (headerSize + (framesUpTo B alg i).length)).take
      (frameOf B alg i).length = frameOf B alg i := by
    rw [finish_drop_payload stF _ _ hpay2, List.append_assoc]
    exact List.take_left _ _
  have hlastiff : (headerSize + (framesUpTo B alg (i + 1)).length = stF.outbytes) ↔
      (i + 1 = numChunks B.length) := by
    rw [houtbF, hpayF]
    constructor
    · intro h
      by_contra hc
      have := framesUpTo_len_strict B alg (i + 1) (numChunks B.length) (by omega)
      omega
    · intro h
      rw [h]
  have hslicelen : (chunkSliceOf B i).length ≤ CHUNK_SIZE := by
    rw [chunkSliceOf_length]
    omega
  unfold DecompressStringChunk
  dsimp only
  rw [hfield, hstartval, hendval, hsub, hseg]
  rcases halg2 with halg0 | halg1
  · subst halg0
    have halgbyte : byteAt stF.finish 4 = 0 := by
      rw [finish_algByte, halgF]
    rw [if_pos halgbyte]
    have hfrm : DecompressStringChunkFraming = ZlibFraming.raw := by decide
    rw [hfrm]
    dsimp only [inflateWith]
    by_cases hlast : i + 1 = numChunks B.length
    · have hlc : headerSize + (framesUpTo B 0 (i + 1)).length = stF.outbytes :=
        hlastiff.mpr hlast
      rw [if_pos hlc]
      have hfr0 : frameOf B 0 i = chunkSliceOf B i ++ zEndMark := by
        unfold frameOf zFrame
        rw [if_pos rfl, if_pos hlast]
      unfold inflateRawSegment
      rw [hfr0]
      have ht1 : (chunkSliceOf B i ++ zEndMark).take (chunkSliceOf B i).length =
          chunkSliceOf B i := List.take_left _ _
      have ht2 : (chunkSliceOf B i ++ zEndMark).drop (chunkSliceOf B i).length =
          zEndMark := List.drop_left _ _
      simp [ht1, ht2, hlc]
    · have hlc : ¬ (headerSize + (framesUpTo B 0 (i + 1)).length = stF.outbytes) := by
        intro hc
        exact hlast (hlastiff.mp hc)
      rw [if_neg hlc]
      have hfr0 : frameOf B 0 i = chunkSliceOf B i ++ zFlushMark := by
        unfold frameOf zFrame
        rw [if_pos rfl, if_neg hlast]
      unfold inflateRawSegment
      rw [hfr0]
      have ht1 : (chunkSliceOf B i ++ zFlushMark).take (chunkSliceOf B i).length =
          chunkSliceOf B i := List.take_left _ _
      simp [ht1, hlc]
  · subst halg1
    have halgbyte : byteAt stF.finish 4 = 1 := by
      rw [finish_algByte, halgF]
    have hne0 : ¬ byteAt stF.finish 4 = 0 := by
      rw [halgbyte]
      decide
    rw [if_neg hne0, if_pos halgbyte]
    have hfr1 : frameOf B 1 i = zstdFrameEnc (chunkSliceOf B i) := by
      unfold frameOf zstdFrameOf
      rfl
    rw [hfr1, ZSTD_decompress_frame (chunkSliceOf B i) (chunkSliceOf B i).length
      (by simp only [U32MOD, CHUNK_SIZE] at hslicelen ⊢; omega) (le_refl _)]
    simp

end Compression

namespace Compression

set_option maxHeartbeats 1000000

theorem byteAt_drop (l : List Nat) (m t : Nat) :
    byteAt (l.drop m) t = byteAt l (m + t) := by
  unfold byteAt
  rw [List.getD_eq_getElem?_getD, List.getD_eq_getElem?_getD, List.getElem?_drop]

theorem byteAt_take (l : List Nat) (n t : Nat) (h : t < n) :
    byteAt (l.take n) t = byteAt l t := by
  unfold byteAt
  rw [List.getD_eq_getElem?_getD, List.getD_eq_getElem?_getD,
    List.getElem?_take, if_pos h]

theorem chunkSliceOf_byteAt (B : List Nat) (j r : Nat) (hr : r < CHUNK_SIZE) :
    byteAt (chunkSliceOf B j) r = byteAt B (CHUNK_SIZE * j + r) := by
  unfold chunkSliceOf
  rw [byteAt_take _ _ _ hr, byteAt_drop]

theorem chunkSliceOf_length_full (B : List Nat) (k : Nat)
    (h : CHUNK_SIZE * (k + 1) ≤ B.length) :
    (chunkSliceOf B k).length = CHUNK_SIZE := by
  rw [chunkSliceOf_length]
  have : CHUNK_SIZE * (k + 1) = CHUNK_SIZE * k + CHUNK_SIZE := by ring
  omega

theorem framesUpTo_zlib_length (B : List Nat) (j : Nat)
    (hj : j < numChunks B.length) :
    (framesUpTo B 0 j).length = (CHUNK_SIZE + 4) * j := by
  induction j with
  | zero => simp [framesUpTo]
  | succ n ih =>
    rw [framesUpTo_succ, List.length_append, ih (by omega)]
    have hfull : CHUNK_SIZE * (n + 1) ≤ B.length := by
      have h2 := hj
      unfold numChunks CHUNK_SIZE at h2
      unfold CHUNK_SIZE
      omega
    have hnlast : ¬ (n + 1 = numChunks B.length) := by omega
    unfold frameOf zFrame
    rw [if_pos rfl, if_neg hnlast, List.length_append,
      chunkSliceOf_length_full B n hfull]
    have : zFlushMark.length = 4 := by decide
    rw [this]
    ring

theorem zlibPayload_full_length (B : List Nat) (hB : 1 ≤ B.length) :
    (framesUpTo B 0 (numChunks B.length)).length =
      (CHUNK_SIZE + 4) * (numChunks B.length - 1) +
        (B.length - CHUNK_SIZE * (numChunks B.length - 1)) + 1 := by
  have hp := numChunks_pos B.length
  obtain ⟨m, hm⟩ : ∃ m, numChunks B.length = m + 1 :=
    ⟨numChunks B.length - 1, by omega⟩
  rw [hm, framesUpTo_succ, List.length_append,
    framesUpTo_zlib_length B m (by omega)]
  have hlastlen : (chunkSliceOf B m).length = B.length - CHUNK_SIZE * m := by
    rw [chunkSliceOf_length]
    have hm2 := hm
    unfold numChunks CHUNK_SIZE at hm2
    unfold CHUNK_SIZE
    omega
  unfold frameOf zFrame
  rw [if_pos rfl, if_pos hm.symm, List.length_append, hlastlen]
  have hz : zEndMark.length = 1 := by decide
  rw [hz]
  unfold CHUNK_SIZE
  omega

theorem framesUpTo_zlib_byteAt_data (B : List Nat) (j r : Nat)
    (hj : j + 1 < numChunks B.length) (hr : r < CHUNK_SIZE) :
    byteAt (framesUpTo B 0 (numChunks B.length)) ((CHUNK_SIZE + 4) * j + r) =
      byteAt B (CHUNK_SIZE * j + r) := by
  obtain ⟨rest, hd⟩ := framesUpTo_decomp B 0 (j + 1) (numChunks B.length) (by omega)
  rw [hd, framesUpTo_succ, List.append_assoc]
  have hlen : (framesUpTo B 0 j).length = (CHUNK_SIZE + 4) * j :=
    framesUpTo_zlib_length B j (by omega)
  rw [show (CHUNK_SIZE + 4) * j + r = (framesUpTo B 0 j).length + r from by
    rw [hlen], byteAt_append_right]
  have hfull : CHUNK_SIZE * (j + 1) ≤ B.length := by
    have h2 := hj
    unfold numChunks CHUNK_SIZE at h2
    unfold CHUNK_SIZE
    omega
  have hnlast : ¬ (j + 1 = numChunks B.length) := by omega
  have hfr : frameOf B 0 j = chunkSliceOf B j ++ zFlushMark := by
    unfold frameOf zFrame
    rw [if_pos rfl, if_neg hnlast]
  rw [hfr, List.append_assoc,
    byteAt_append_left _ _ r (by rw [chunkSliceOf_length_full B j hfull]; omega),
    chunkSliceOf_byteAt B j r hr]

theorem framesUpTo_zlib_readLE4_data (B : List Nat) (j r : Nat)
    (hj : j + 1 < numChunks B.length) (hr : r + 3 < CHUNK_SIZE) :
    readLE4 (framesUpTo B 0 (numChunks B.length)) ((CHUNK_SIZE + 4) * j + r) =
      readLE4 B (CHUNK_SIZE * j + r) := by
  unfold readLE4
  rw [show (CHUNK_SIZE + 4) * j + r + 1 = (CHUNK_SIZE + 4) * j + (r + 1) from by omega,
    show (CHUNK_SIZE + 4) * j + r + 2 = (CHUNK_SIZE + 4) * j + (r + 2) from by omega,
    show (CHUNK_SIZE + 4) * j + r + 3 = (CHUNK_SIZE + 4) * j + (r + 3) from by omega,
    framesUpTo_zlib_byteAt_data B j r hj (by omega),
    framesUpTo_zlib_byteAt_data B j (r + 1) hj (by omega),
    framesUpTo_zlib_byteAt_data B j (r + 2) hj (by omega),
    framesUpTo_zlib_byteAt_data B j (r + 3) hj (by omega),
    show CHUNK_SIZE * j + r + 1 = CHUNK_SIZE * j + (r + 1) from by omega,
    show CHUNK_SIZE * j + r + 2 = CHUNK_SIZE * j + (r + 2) from by omega,
    show CHUNK_SIZE * j + r + 3 = CHUNK_SIZE * j + (r + 3) from by omega]

theorem hugeIn_length : hugeIn.length = hugeLen := by
  unfold hugeIn
  rw [List.length_append, List.length_append, List.length_replicate,
    List.length_replicate]
  have h4 : ([9, 0, 0, 0] : List Nat).length = 4 := rfl
  rw [h4]
  unfold hugeLen
  omega

theorem hugeIn_readLE4_plant : readLE4 hugeIn 262128 = 9 := by
  have h : hugeIn = List.replicate 262128 0 ++
      ([9, 0, 0, 0] ++ List.replicate (hugeLen - 262132) 0) := by
    unfold hugeIn
    rw [List.append_assoc]
  have hlen : (List.replicate 262128 (0 : Nat)).length = 262128 := by
    rw [List.length_replicate]
  have h2 : readLE4 hugeIn ((List.replicate 262128 (0 : Nat)).length + 0) =
      readLE4 ([9, 0, 0, 0] ++ List.replicate (hugeLen - 262132) 0) 0 := by
    rw [h, readLE4_append_right]
  rw [hlen] at h2
  rw [h2, readLE4_append_left _ _ 0 (by decide)]
  decide

end Compression

namespace Compression

set_option maxHeartbeats 1000000

theorem length_flatMap_lenLE4 (xs : List Nat) :
    (xs.flatMap lenLE4).length = 4 * xs.length := by
  induction xs with
  | nil => simp
  | cons a t ih =>
    rw [List.flatMap_cons, List.length_append, ih, List.length_cons, length_lenLE4]
    ring

theorem offsetTable_core (B : List Nat) (alg : Nat) (stF : Compressor)
    (hfit : headerSize + (framesUpTo B alg (numChunks B.length)).length < U32MOD)
    (hpayF : stF.payload = framesUpTo B alg (numChunks B.length))
    (houtbF : stF.outbytes = headerSize + stF.payload.length)
    (hoffsF : stF.chunkOffsets = offsetsUpTo B alg (numChunks B.length)) :
    stF.finish.length = chunkTableOffset stF.finish + 4 * numChunks B.length ∧
    headerSize < readLE4 stF.finish (chunkTableOffset stF.finish + 4 * 0) ∧
    (∀ k, k + 1 < numChunks B.length →
      readLE4 stF.finish (chunkTableOffset stF.finish + 4 * k) <
        readLE4 stF.finish (chunkTableOffset stF.finish + 4 * (k + 1))) ∧
    readLE4 stF.finish (chunkTableOffset stF.finish + 4 * (numChunks B.length - 1)) =
      readLE4 stF.finish 0 := by
  have houtlt : stF.outbytes < U32MOD := by
    rw [houtbF, hpayF]
    exact hfit
  have hfield : readLE4 stF.finish 0 = stF.outbytes := by
    rw [finish_readLE4_zero, Nat.mod_eq_of_lt houtlt]
  have hcto : chunkTableOffset stF.finish = align4 stF.outbytes := by
    unfold chunkTableOffset
    rw [hfield]
  have hoffread : ∀ k, k < numChunks B.length →
      readLE4 stF.finish (align4 stF.outbytes + 4 * k) =
        headerSize + (framesUpTo B alg (k + 1)).length := by
    intro k hk
    rw [finish_readLE4_table stF k houtbF
      (by rw [hoffsF, offsetsUpTo_length]; exact hk),
      hoffsF, offsetsUpTo_getD B alg _ k hk]
    have hle : (framesUpTo B alg (k + 1)).length ≤
        (framesUpTo B alg (numChunks B.length)).length :=
      framesUpTo_len_mono B alg (k + 1) _ hk
    simp only [U32MOD, headerSize] at hfit ⊢
    omega
  have hp := numChunks_pos B.length
  refine ⟨?_, ?_, ?_, ?_⟩
  · obtain ⟨pre, hfin, hlen⟩ := finish_append_table stF houtbF
    rw [hcto, hfin, List.length_append, hlen, length_flatMap_lenLE4, hoffsF,
      offsetsUpTo_length]
  · rw [hcto, hoffread 0 hp]
    simp only [Nat.zero_add]
    have h0 : (framesUpTo B alg 0).length = 0 := by
      simp [framesUpTo]
    have h01 := framesUpTo_len_strict B alg 0 1 (by omega)
    omega
  · intro k hk
    rw [hcto, hoffread k (by omega), hoffread (k + 1) hk]
    have := framesUpTo_len_strict B alg (k + 1) (k + 1 + 1) (by omega)
    omega
  · rw [hcto, hoffread (numChunks B.length - 1) (by omega), hfield, houtbF, hpayF,
      show numChunks B.length - 1 + 1 = numChunks B.length from by omega]

end Compression

namespace Compression

set_option maxHeartbeats 1000000

/-- C1 (amended): per-chunk round trip. For every input B with 1 <= |B| <
UINT32_MAX whose complete container - header plus compressed payload - fits
the 32-bit compressedBytes header field, both algorithms, any level, any
positive per-step input budget, and every chunk index i < N, decompressing
chunk i of the compressed container yields exactly the bytes of chunk i of B.
Without the fit bound the truncated header field misplaces the offset table
and the round trip fails (see the counterexample). -/
theorem c1_chunkRoundTripAmended (B : List Nat) (alg level maxInput i : Nat)
    (hB : 1 ≤ B.length) (hBmax : B.length < UINT32_MAX)
    (halg : alg = 0 ∨ alg = 1) (hmi : 1 ≤ maxInput)
    (hi : i < numChunks B.length)
    (hfit : headerSize + (framesUpTo B alg (numChunks B.length)).length < U32MOD) :
    ∃ container, compress B alg level maxInput = some container ∧
      DecompressStringChunk container i (chunkSliceOf B i).length =
        some (chunkSliceOf B i) := by
  rcases halg with h0 | h1
  · subst h0
    obtain ⟨stF, hpl, hpay, houtb, hoffs, halgf, hlvl⟩ :=
      zlibPipeline_characterization B level maxInput hB hBmax hmi
    have hpayF : stF.payload = framesUpTo B 0 (numChunks B.length) := by
      rw [hpay, zlibPayload_eq_framesUpTo]
    have houtbF : stF.outbytes = headerSize + stF.payload.length := by
      rw [houtb, hpay]
    refine ⟨stF.finish, ?_, ?_⟩
    · unfold compress
      rw [hpl]
      rfl
    · exact chunk_roundtrip_core B 0 stF i (Or.inl rfl) hfit halgf hpayF houtbF
        hoffs hi
  · subst h1
    obtain ⟨stF, hpl, hpay, houtb, hoffs, halgf, hlvl⟩ :=
      zstdPipeline_characterization B level maxInput hB hBmax hmi
    have hpayF : stF.payload = framesUpTo B 1 (numChunks B.length) := by
      rw [hpay, zstdPayload_eq_framesUpTo]
    have houtbF : stF.outbytes = headerSize + stF.payload.length := by
      rw [houtb, hpay]
    refine ⟨stF.finish, ?_, ?_⟩
    · unfold compress
      rw [hpl]
      rfl
    · exact chunk_roundtrip_core B 1 stF i (Or.inr rfl) hfit halgf hpayF houtbF
        hoffs hi

/-- C1 (witness): the amended per-chunk round trip at the one-byte input
[65], the zlib algorithm, level 7, step budget 2048, chunk 0. -/
theorem c1_amended_witness :
    1 ≤ ([65] : List Nat).length ∧
    ∃ container, compress [65] 0 7 2048 = some container ∧
      DecompressStringChunk container 0 (chunkSliceOf [65] 0).length =
        some (chunkSliceOf [65] 0) :=
  ⟨by decide, c1_chunkRoundTripAmended [65] 0 7 2048 0 (by decide) (by decide)
    (Or.inl rfl) (by decide) (by decide) (by decide)⟩

/-- C8 (amended): offset-table invariants. For every input whose container
fits the 32-bit compressedBytes field, the finished container carries exactly
N = ceil(|B|/C) table entries ending flush with the container, the first
entry exceeds sizeof(Header), the entries are strictly increasing, and the
last entry equals the header's compressedBytes field itself - not
sizeof(Header) + compressedBytes, because each recorded outbytes value is
already header-inclusive. -/
theorem c8_offsetTableAmended (B : List Nat) (alg level maxInput : Nat)
    (hB : 1 ≤ B.length) (hBmax : B.length < UINT32_MAX)
    (halg : alg = 0 ∨ alg = 1) (hmi : 1 ≤ maxInput)
    (hfit : headerSize + (framesUpTo B alg (numChunks B.length)).length < U32MOD) :
    ∃ container, compress B alg level maxInput = some container ∧
      container.length = chunkTableOffset container + 4 * numChunks B.length ∧
      headerSize < readLE4 container (chunkTableOffset container + 4 * 0) ∧
      (∀ k, k + 1 < numChunks B.length →
        readLE4 container (chunkTableOffset container + 4 * k) <
          readLE4 container (chunkTableOffset container + 4 * (k + 1))) ∧
      readLE4 container (chunkTableOffset container + 4 * (numChunks B.length - 1)) =
        readLE4 container 0 := by
  rcases halg with h0 | h1
  · subst h0
    obtain ⟨stF, hpl, hpay, houtb, hoffs, halgf, hlvl⟩ :=
      zlibPipeline_characterization B level maxInput hB hBmax hmi
    have hpayF : stF.payload = framesUpTo B 0 (numChunks B.length) := by
      rw [hpay, zlibPayload_eq_framesUpTo]
    have houtbF : stF.outbytes = headerSize + stF.payload.length := by
      rw [houtb, hpay]
    refine ⟨stF.finish, ?_, offsetTable_core B 0 stF hfit hpayF houtbF hoffs⟩
    unfold compress
    rw [hpl]
    rfl
  · subst h1
    obtain ⟨stF, hpl, hpay, houtb, hoffs, halgf, hlvl⟩ :=
      zstdPipeline_characterization B level maxInput hB hBmax hmi
    have hpayF : stF.payload = framesUpTo B 1 (numChunks B.length) := by
      rw [hpay, zstdPayload_eq_framesUpTo]
    have houtbF : stF.outbytes = headerSize + stF.payload.length := by
      rw [houtb, hpay]
    refine ⟨stF.finish, ?_, offsetTable_core B 1 stF hfit hpayF houtbF hoffs⟩
    unfold compress
    rw [hpl]
    rfl

/-- C8 (witness): the amended offset-table invariants at the one-byte input
[65], the zlib algorithm, level 7, step budget 2048. -/
theorem c8_amended_witness :
    1 ≤ ([65] : List Nat).length ∧
    ∃ container, compress [65] 0 7 2048 = some container ∧
      container.length = chunkTableOffset container +
        4 * numChunks ([65] : List Nat).length ∧
      headerSize < readLE4 container (chunkTableOffset container + 4 * 0) ∧
      (∀ k, k + 1 < numChunks ([65] : List Nat).length →
        readLE4 container (chunkTableOffset container + 4 * k) <
          readLE4 container (chunkTableOffset container + 4 * (k + 1))) ∧
      readLE4 container
          (chunkTableOffset container +
            4 * (numChunks ([65] : List Nat).length - 1)) =
        readLE4 container 0 :=
  ⟨by decide, c8_offsetTableAmended [65] 0 7 2048 (by decide) (by decide)
    (Or.inl rfl) (by decide) (by decide)⟩

end Compression

namespace Compression

set_option maxHeartbeats 1000000

theorem hugeIn_pipeline :
    ∃ stF, pipelineState hugeIn 0 7 2048 = some stF ∧
      stF.alg = 0 ∧
      stF.payload = framesUpTo hugeIn 0 (numChunks hugeIn.length) ∧
      stF.payload.length = 4295229435 ∧
      stF.outbytes = 4295229443 := by
  obtain ⟨stF, hpl, hpay, houtb, hoffs, halgf, hlvl⟩ :=
    zlibPipeline_characterization hugeIn 7 2048
      (by rw [hugeIn_length]; decide) (by rw [hugeIn_length]; decide) (by decide)
  have hpayF : stF.payload = framesUpTo hugeIn 0 (numChunks hugeIn.length) := by
    rw [hpay, zlibPayload_eq_framesUpTo]
  have hPL : stF.payload.length = 4295229435 := by
    rw [hpayF, zlibPayload_full_length hugeIn (by rw [hugeIn_length]; decide),
      hugeIn_length, show numChunks hugeLen = 65536 from by decide]
    unfold CHUNK_SIZE hugeLen
    decide
  refine ⟨stF, hpl, halgf, hpayF, hPL, ?_⟩
  rw [houtb, ← hpay] at *
  rw [houtb, hPL]
  decide

end Compression

namespace Compression

set_option maxHeartbeats 1000000

/-- C10 (counterexample): on the 2^32 - 2 byte input hugeIn the final
outbytes value is 4295229443 >= 2^32, the header's 32-bit compressedBytes
field truncates it to 262147, and the offset at which the single-chunk
decoder looks for the table (align4 of the field, 262148) differs from the
offset at which finish wrote it (align4 of outbytes, 4295229444). -/
theorem c10_counterexample :
    ∃ stF, pipelineState hugeIn 0 7 2048 = some stF ∧
      chunkTableOffset stF.finish ≠ finishTableOffset stF := by
  obtain ⟨stF, hpl, halgf, hpayF, hPL, hout⟩ := hugeIn_pipeline
  refine ⟨stF, hpl, ?_⟩
  unfold chunkTableOffset finishTableOffset
  rw [finish_readLE4_zero, hout]
  decide

/-- C1 (counterexample): per-chunk round trip fails on the 2^32 - 2 byte
input hugeIn with the zlib algorithm. The compressed container's header
field truncates outbytes = 4295229443 to 262147, the decoder therefore reads
its offset table out of the middle of the payload, takes the planted bytes
[9,0,0,0] as the first entry, and returns a 1-byte result for chunk 0
instead of its 65536 zero bytes. -/
theorem c1_counterexample :
    ∃ container, compress hugeIn 0 7 2048 = some container ∧
      DecompressStringChunk container 0 (chunkSliceOf hugeIn 0).length ≠
        some (chunkSliceOf hugeIn 0) := by
  obtain ⟨stF, hpl, halgf, hpayF, hPL, hout⟩ := hugeIn_pipeline
  refine ⟨stF.finish, ?_, ?_⟩
  · unfold compress
    rw [hpl]
    rfl
  · have hfield : readLE4 stF.finish 0 = 262147 := by
      rw [finish_readLE4_zero, hout]
      decide
    have hcto : chunkTableOffset stF.finish = 262148 := by
      unfold chunkTableOffset
      rw [hfield]
      decide
    have hendread : readLE4 stF.finish 262148 = 9 := by
      have h1 := finish_readLE4_payload stF 262140 (by rw [hPL]; decide)
      rw [show (262148 : Nat) = headerSize + 262140 from by decide, h1, hpayF,
        show (262140 : Nat) = (CHUNK_SIZE + 4) * 3 + 65520 from by decide,
        framesUpTo_zlib_readLE4_data hugeIn 3 65520
          (by rw [hugeIn_length]; decide) (by decide),
        show CHUNK_SIZE * 3 + 65520 = 262128 from by decide]
      exact hugeIn_readLE4_plant
    have halgbyte : byteAt stF.finish 4 = 0 := by
      rw [finish_algByte, halgf]
    have hslice0 : (chunkSliceOf hugeIn 0).length = 65536 := by
      rw [chunkSliceOf_length, hugeIn_length]
      decide
    have heval : DecompressStringChunk stF.finish 0 (chunkSliceOf hugeIn 0).length =
        some (((stF.finish.drop headerSize).take 1).take
          (chunkSliceOf hugeIn 0).length) := by
      unfold DecompressStringChunk
      dsimp only
      rw [hfield, hcto, if_neg (show ¬ (0 : Nat) < 0 from by decide),
        show (262148 : Nat) + 4 * 0 = 262148 from by decide, hendread,
        show u32sub 9 headerSize = 1 from by decide,
        if_pos halgbyte, if_neg (show ¬ (9 : Nat) = 262147 from by decide)]
      have hfrm : DecompressStringChunkFraming = ZlibFraming.raw := by decide
      rw [hfrm]
      dsimp only [inflateWith]
      unfold inflateRawSegment
      simp
    rw [heval]
    intro hc
    have hl := congrArg List.length (Option.some.inj hc)
    simp only [List.length_take] at hl
    rw [hslice0] at hl
    omega

end Compression
